import Mathlib

/-!
# VirtualDesk layout bookkeeping (src/VirtualDesk.cpp)

Shallow embedding of `VirtualDesk` from the Hyprland virtual-desktops plugin.

Modelling conventions
* `int` is 32-bit two's complement and `size_t` is 64-bit; both are carried
  by `Int`/`Nat` with explicit conversions (`toInt32`, `toSizeT`).
* A `Layout` (a map from monitor description to workspace id) is the list of
  its entries in iteration order.  Statements quantify over all such lists,
  hence over all iteration orders, and describe results through `Layout.find`.
* The iteration order of a `std::unordered_set<std::string>` is not fixed by
  the language; it is a parameter `ord`, mapping the insertion sequence to the
  iteration sequence.
* Hyprland's compositor is external: its monitor list, `getMonitorFromDesc`
  and `getWindowsOnWorkspace` are the fields of `CCompositor`.
* Undefined behaviour (out-of-range vector access, null dereference, signed
  overflow) is the `none` result of an `Option`.
* The layout list is assumed to hold fewer than `2^31` layouts, so the `int`
  member `m_activeLayout_idx` is carried by a `Nat`.
-/

namespace VirtualDesk

/-! ## Machine integers -/

/-- Largest value of a 32-bit `int`. -/
def INT_MAX : Int := 2147483647

/-- Conversion of an integer value to 32-bit `int` (two's complement). -/
def toInt32 (x : Int) : Int := (x + 2147483648) % 4294967296 - 2147483648

/-- Conversion of an integer value to 64-bit `size_t`. -/
def toSizeT (x : Int) : Nat := (x % 18446744073709551616).toNat

/-- Reduction of a `size_t` arithmetic result modulo `2^64`. -/
def wrapSizeT (x : Nat) : Nat := x % 18446744073709551616

/-! ## Layouts: `std::unordered_map<std::string, int>` -/

/-- A layout, as the list of its entries in iteration order. -/
abbrev Layout := List (String × Int)

namespace Layout

/-- Lookup of a key (`find`). -/
def find : Layout → String → Option Int
  | [], _ => none
  | (k, v) :: rest, key => if k = key then some v else find rest key

/-- Membership test `layout.contains(key)`. -/
def contains (l : Layout) (key : String) : Bool := (l.find key).isSome

/-- Assignment `layout[key] = v`: overwrite the entry or add a new one. -/
def set : Layout → String → Int → Layout
  | [], key, v => [(key, v)]
  | (k, w) :: rest, key, v => if k = key then (k, v) :: rest else (k, w) :: set rest key v

/-- Removal `layout.erase(key)`. -/
def erase : Layout → String → Layout
  | [], _ => []
  | (k, w) :: rest, key => if k = key then erase rest key else (k, w) :: erase rest key

/-- Keys in iteration order. -/
def keys (l : Layout) : List String := l.map Prod.fst

/-- Number of entries, `layout.size()`. -/
def size (l : Layout) : Nat := l.length

end Layout

/-! ## The compositor (external) -/

/-- The part of `wlr_output` that is read: its description, possibly null. -/
structure wlr_output where
  description : Option String
deriving DecidableEq, Repr

/-- The part of `CMonitor` that is read. -/
structure CMonitor where
  output : wlr_output
  m_bEnabled : Bool
  activeWorkspace : Int
deriving DecidableEq, Repr

/-- The compositor `g_pCompositor`: the monitor registry and the two queries
this file calls on it. -/
structure CCompositor where
  m_vMonitors : List CMonitor
  getMonitorFromDesc : String → Option CMonitor
  getWindowsOnWorkspace : Int → Int

/-- `VirtualDesk::monitorDesc`: the description, or the empty string. -/
def monitorDesc (output : wlr_output) : String :=
  match output.description with
  | some d => d
  | none => ""

/-- `VirtualDesk::currentlyEnabledMonitors`. -/
def currentlyEnabledMonitors (g : CCompositor) : List CMonitor :=
  g.m_vMonitors.filter (fun mon => mon.m_bEnabled)

/-- Descriptions of the enabled monitors, in registry order. -/
def enabledDescs (g : CCompositor) : List String :=
  (currentlyEnabledMonitors g).map (fun mon => monitorDesc mon.output)

/-- Modelled from the spec: Hyprland's `getMonitorFromDesc` is not part of this
repository; `resolveMonitorByDescriptor` looks a monitor up by its descriptor.
This is the first registry monitor with that description. -/
def lookupByDesc (mons : List CMonitor) (desc : String) : Option CMonitor :=
  mons.find? (fun mon => decide (monitorDesc mon.output = desc))

/-- A compositor over a monitor list, with descriptor lookup `lookupByDesc` and
the given window counts per workspace. -/
def mkCompositor (mons : List CMonitor) (windows : Int → Int) : CCompositor :=
  { m_vMonitors := mons, getMonitorFromDesc := lookupByDesc mons, getWindowsOnWorkspace := windows }

/-! ## Layout generation -/

/-- The loop of `generateCurrentMonitorLayout`: `i` is the `int` loop variable,
`bound` the `size_t` value `vdeskFirstWorkspace + monitors.size()`, and the
first argument the monitors from index `j` on. -/
def generateLoop (bound : Nat) : List CMonitor → Int → Layout → Option Layout
  | [], i, layout => if toSizeT i < bound then none else some layout
  | mon :: rest, i, layout =>
    if toSizeT i < bound then
      if i = INT_MAX then none
      else generateLoop bound rest (i + 1) (layout.set (monitorDesc mon.output) i)
    else some layout

/-- The value `(this->id - 1) * monitors.size() + 1`, computed in `size_t`. -/
def vdeskFirstWorkspace (id : Int) (n : Nat) : Nat :=
  wrapSizeT (wrapSizeT (toSizeT (id - 1) * n) + 1)

/-- `VirtualDesk::generateCurrentMonitorLayout` for desk `id`. -/
def generateCurrentMonitorLayout (g : CCompositor) (id : Int) : Option Layout :=
  let monitors := currentlyEnabledMonitors g
  let first := vdeskFirstWorkspace id monitors.length
  generateLoop (wrapSizeT (first + monitors.length)) monitors (toInt32 first) []

/-! ## Unordered sets and `std::set_intersection` -/

/-- Comparison `a < b` of two `std::string`s (lexicographic). -/
def strLess (a b : String) : Bool := decide (a.data < b.data)

/-- Insertion into a `std::unordered_set<std::string>`, as the sequence of
its distinct elements. -/
def usetInsert (s : List String) (k : String) : List String :=
  if k ∈ s then s else s ++ [k]

/-- The distinct elements of an insertion sequence, first occurrences first. -/
def insertAll (xs : List String) : List String := xs.foldl usetInsert []

/-- The iteration order that lists the elements as they were first inserted. -/
def insertionOrder : List String → List String := insertAll

/-- The iteration order that lists the most recently inserted element first. -/
def reverseOrder (xs : List String) : List String := (insertAll xs).reverse

/-- An admissible iteration order: it lists exactly the inserted elements,
each once. -/
def IsSetOrder (ord : List String → List String) : Prop :=
  ∀ xs, (ord xs).Nodup ∧ ∀ x, x ∈ ord xs ↔ x ∈ xs

/-- `VirtualDesk::setFromMonitors`: the set of descriptions, as its iteration
sequence under `ord`. -/
def setFromMonitors (ord : List String → List String) (monitors : List CMonitor) : List String :=
  ord (monitors.map (fun mon => monitorDesc mon.output))

/-- The merge loop of `std::set_intersection` on two ranges, with the fuel
bounding the number of steps; the output sequence. -/
def setIntersectionLoop : Nat → List String → List String → List String
  | 0, _, _ => []
  | _ + 1, [], _ => []
  | _ + 1, _ :: _, [] => []
  | fuel + 1, a :: as, b :: bs =>
    if strLess a b then setIntersectionLoop fuel as (b :: bs)
    else if strLess b a then setIntersectionLoop fuel (a :: as) bs
    else a :: setIntersectionLoop fuel as bs

/-- `std::set_intersection(first1, last1, first2, last2, out)`. -/
def set_intersection (r1 r2 : List String) : List String :=
  setIntersectionLoop (r1.length + r2.length) r1 r2

/-! ## The desk -/

/-- The three policies of `RememberLayoutConf`. -/
inductive RememberLayoutConf where
  | none
  | size
  | monitors
deriving DecidableEq, Repr

end VirtualDesk

/-- The state of a `VirtualDesk` object. -/
structure VirtualDesk where
  id : Int
  name : String
  layouts : List VirtualDesk.Layout
  m_activeLayout_idx : Nat
  activeIsValid : Bool
deriving DecidableEq, Repr

namespace VirtualDesk

/-- The constructor `VirtualDesk::VirtualDesk(id, name)`.  The initial value of
`activeIsValid` comes from the class declaration and is a parameter here. -/
def mk' (g : CCompositor) (id : Int) (name : String) (valid : Bool) : Option VirtualDesk :=
  (generateCurrentMonitorLayout g id).map fun layout =>
    { id := id, name := name, layouts := [layout], m_activeLayout_idx := 0, activeIsValid := valid }

/-- `VirtualDesk::firstAvailableMonitor`: the loop over the enabled monitors with
the running minimum `n` and the running choice `newMonitor`. -/
def firstAvailableLoop (g : CCompositor) : List CMonitor → Int → Option CMonitor → Option CMonitor
  | [], _, newMonitor => newMonitor
  | mon :: rest, n, newMonitor =>
    let n_on_mon := g.getWindowsOnWorkspace mon.activeWorkspace
    if n_on_mon < n then firstAvailableLoop g rest n_on_mon (some mon)
    else firstAvailableLoop g rest n newMonitor

/-- `VirtualDesk::firstAvailableMonitor`; the argument is not read, the loop
runs over `currentlyEnabledMonitors()`.  `none` is the null pointer. -/
def firstAvailableMonitor (g : CCompositor) (_enabledMonitors : List CMonitor) : Option CMonitor :=
  firstAvailableLoop g (currentlyEnabledMonitors g) INT_MAX none

/-- The test `!fromDesc || !fromDesc->m_bEnabled` of `checkAndAdaptLayout`. -/
def notEnabled (g : CCompositor) (desc : String) : Bool :=
  match g.getMonitorFromDesc desc with
  | none => true
  | some fromDesc => !fromDesc.m_bEnabled

/-- The loop of `checkAndAdaptLayout` over the copy of the layout; the second
argument is the layout being repaired. -/
def checkAndAdaptLoop (g : CCompositor) : List (String × Int) → Layout → Layout
  | [], layout => layout
  | (desc, wid) :: rest, layout =>
    if notEnabled g desc then
      match (currentlyEnabledMonitors g).find? (fun mon => !layout.contains (monitorDesc mon.output)) with
      | some mon => (layout.set (monitorDesc mon.output) wid).erase desc
      | none => checkAndAdaptLoop g rest (layout.erase desc)
    else checkAndAdaptLoop g rest layout

/-- `VirtualDesk::checkAndAdaptLayout`. -/
def checkAndAdaptLayout (g : CCompositor) (layout : Layout) : Layout :=
  checkAndAdaptLoop g layout layout

/-- The test of the `monitors` case: the intersection of the layout's key set
with the current set has as many elements as the key set. -/
def matchesMonitors (ord : List String → List String) (currentSet : List String) (layout : Layout) : Bool :=
  let set := ord layout.keys
  let intersection := insertAll (set_intersection set currentSet)
  decide (intersection.length = set.length)

/-- The scan of the `monitors` case: index of the first layout that passes. -/
def searchByMonitors (ord : List String → List String) (currentSet : List String) :
    List Layout → Nat → Option Nat
  | [], _ => Option.none
  | layout :: rest, idx =>
    if matchesMonitors ord currentSet layout then some idx
    else searchByMonitors ord currentSet rest (idx + 1)

/-- The scan of the `size` case: index of the first layout with as many
entries as there are enabled monitors. -/
def searchBySize (n : Nat) : List Layout → Nat → Option Nat
  | [], _ => Option.none
  | layout :: rest, idx =>
    if layout.size = n then some idx else searchBySize n rest (idx + 1)

/-- The fallback of `searchActiveLayout`: append a generated layout and make
it the active one. -/
def appendGenerated (g : CCompositor) (s : VirtualDesk) (layouts : List Layout) :
    Option (VirtualDesk × Layout) :=
  (generateCurrentMonitorLayout g s.id).map fun layout =>
    ({ s with layouts := layouts ++ [layout], m_activeLayout_idx := (layouts ++ [layout]).length - 1 },
      layout)

/-- `VirtualDesk::searchActiveLayout`: the new state and the layout returned. -/
def searchActiveLayout (g : CCompositor) (ord : List String → List String)
    (conf : RememberLayoutConf) (s : VirtualDesk) : Option (VirtualDesk × Layout) :=
  let monitors := currentlyEnabledMonitors g
  match conf with
  | RememberLayoutConf.monitors =>
    let currentSet := setFromMonitors ord monitors
    match searchByMonitors ord currentSet s.layouts 0 with
    | some idx => s.layouts[idx]?.map fun layout => ({ s with m_activeLayout_idx := idx }, layout)
    | Option.none => appendGenerated g s s.layouts
  | RememberLayoutConf.size =>
    match searchBySize monitors.length s.layouts 0 with
    | some idx =>
      s.layouts[idx]?.map fun layout =>
        let adapted := checkAndAdaptLayout g layout
        ({ s with layouts := s.layouts.set idx adapted, m_activeLayout_idx := idx }, adapted)
    | Option.none => appendGenerated g s s.layouts
  | RememberLayoutConf.none => appendGenerated g s []

/-- `VirtualDesk::activeLayout`: the new state and the layout returned. -/
def activeLayout (g : CCompositor) (ord : List String → List String)
    (conf : RememberLayoutConf) (s : VirtualDesk) : Option (VirtualDesk × Layout) :=
  if s.activeIsValid then
    s.layouts[s.m_activeLayout_idx]?.map fun layout => (s, layout)
  else
    (searchActiveLayout g ord conf { s with activeIsValid := true }).bind fun r =>
      r.1.layouts[r.1.m_activeLayout_idx]?.map fun layout => (r.1, layout)

/-- `VirtualDesk::changeWorkspaceOnMonitor`. -/
def changeWorkspaceOnMonitor (workspaceId : Int) (monitor : CMonitor) (s : VirtualDesk) :
    Option VirtualDesk :=
  s.layouts[s.m_activeLayout_idx]?.map fun layout =>
    let edited := layout.set (monitorDesc monitor.output) workspaceId
    { s with layouts := s.layouts.set s.m_activeLayout_idx edited }

/-- `VirtualDesk::invalidateActiveLayout`. -/
def invalidateActiveLayout (s : VirtualDesk) : VirtualDesk :=
  { s with activeIsValid := false }

/-- `VirtualDesk::resetLayout`. -/
def resetLayout (g : CCompositor) (s : VirtualDesk) : Option VirtualDesk :=
  (generateCurrentMonitorLayout g s.id).bind fun layout =>
    if s.m_activeLayout_idx < s.layouts.length then
      some { s with layouts := s.layouts.set s.m_activeLayout_idx layout }
    else Option.none

/-- The loop of `deleteInvalidMonitor(output)` over the copy of the active
layout; the last argument is the active layout being edited. -/
def deleteOutputLoop (g : CCompositor) (output : wlr_output) :
    List (String × Int) → Layout → Option Layout
  | [], layout => some layout
  | (desc, workspaceId) :: rest, layout =>
    if monitorDesc output = desc then
      match firstAvailableMonitor g (currentlyEnabledMonitors g) with
      | Option.none => Option.none
      | some newMonitor =>
        deleteOutputLoop g output rest
          ((layout.set (monitorDesc newMonitor.output) workspaceId).erase desc)
    else deleteOutputLoop g output rest layout

/-- `VirtualDesk::deleteInvalidMonitor(const wlr_output*)`. -/
def deleteInvalidMonitor (g : CCompositor) (output : wlr_output) (s : VirtualDesk) :
    Option VirtualDesk :=
  s.layouts[s.m_activeLayout_idx]?.bind fun layout_copy =>
    (deleteOutputLoop g output layout_copy layout_copy).map fun layout =>
      { s with layouts := s.layouts.set s.m_activeLayout_idx layout }

/-- The loop of the registry-driven `deleteInvalidMonitor()`. -/
def deleteStaleLoop (g : CCompositor) (enabledMonitors : List CMonitor)
    (enabledMonitorsDesc : List String) : List (String × Int) → Layout → Option Layout
  | [], layout => some layout
  | (desc, workspaceId) :: rest, layout =>
    if desc ∉ enabledMonitorsDesc then
      match firstAvailableMonitor g enabledMonitors with
      | Option.none => Option.none
      | some newMonitor =>
        deleteStaleLoop g enabledMonitors enabledMonitorsDesc rest
          ((layout.set (monitorDesc newMonitor.output) workspaceId).erase desc)
    else deleteStaleLoop g enabledMonitors enabledMonitorsDesc rest layout

/-- `VirtualDesk::deleteInvalidMonitor()`, the registry-driven variant. -/
def deleteInvalidMonitorRegistry (g : CCompositor) (s : VirtualDesk) : Option VirtualDesk :=
  s.layouts[s.m_activeLayout_idx]?.bind fun layout_copy =>
    let enabledMonitors := currentlyEnabledMonitors g
    let enabledMonitorsDesc := enabledMonitors.map (fun mon => monitorDesc mon.output)
    (deleteStaleLoop g enabledMonitors enabledMonitorsDesc layout_copy layout_copy).map fun layout =>
      { s with layouts := s.layouts.set s.m_activeLayout_idx layout }

/-- Repetition of `deleteInvalidMonitor(monitor)`, once per element of the
layout list being iterated. -/
def deleteRepeat (g : CCompositor) (monitor : wlr_output) : Nat → VirtualDesk → Option VirtualDesk
  | 0, s => some s
  | k + 1, s => (deleteInvalidMonitor g monitor s).bind (deleteRepeat g monitor k)

/-- `VirtualDesk::deleteInvalidMonitorOnAllLayouts`. -/
def deleteInvalidMonitorOnAllLayouts (g : CCompositor) (monitor : wlr_output) (s : VirtualDesk) :
    Option VirtualDesk :=
  deleteRepeat g monitor s.layouts.length s

end VirtualDesk

namespace VirtualDesk

/-! ## Reachable desk states -/

/-- The desk states reachable from the constructor by the public operations,
each step running against its own registry state. -/
inductive Reachable : VirtualDesk → Prop
  | construct (g : CCompositor) (id : Int) (name : String) (valid : Bool) (s : VirtualDesk) :
      mk' g id name valid = some s → Reachable s
  | activeLayout (g : CCompositor) (ord : List String → List String) (conf : RememberLayoutConf)
      (s : VirtualDesk) (r : VirtualDesk × Layout) :
      Reachable s → VirtualDesk.activeLayout g ord conf s = some r → Reachable r.1
  | invalidate (s : VirtualDesk) : Reachable s → Reachable (invalidateActiveLayout s)
  | changeWorkspace (workspaceId : Int) (monitor : CMonitor) (s t : VirtualDesk) :
      Reachable s → changeWorkspaceOnMonitor workspaceId monitor s = some t → Reachable t
  | reset (g : CCompositor) (s t : VirtualDesk) :
      Reachable s → resetLayout g s = some t → Reachable t
  | deleteOutput (g : CCompositor) (output : wlr_output) (s t : VirtualDesk) :
      Reachable s → deleteInvalidMonitor g output s = some t → Reachable t
  | deleteRegistry (g : CCompositor) (s t : VirtualDesk) :
      Reachable s → deleteInvalidMonitorRegistry g s = some t → Reachable t
  | deleteAll (g : CCompositor) (output : wlr_output) (s t : VirtualDesk) :
      Reachable s → deleteInvalidMonitorOnAllLayouts g output s = some t → Reachable t

/-! ## Concrete registries used in the examples -/

/-- An enabled monitor with the given description, showing `workspace`. -/
def enabledMonitor (desc : String) (workspace : Int) : CMonitor :=
  { output := { description := some desc }, m_bEnabled := true, activeWorkspace := workspace }

/-- A registry of enabled monitors with the given descriptions; the monitor at
position `j` shows workspace `j + 1`. -/
def registryLoop : List String → Int → List CMonitor
  | [], _ => []
  | d :: rest, w => enabledMonitor d w :: registryLoop rest (w + 1)

/-- A compositor whose monitors are all enabled, with the given descriptions,
and whose workspaces hold `windows w` windows. -/
def compositorOf (descs : List String) (windows : Int → Int) : CCompositor :=
  mkCompositor (registryLoop descs 1) windows

/-- No window anywhere. -/
def noWindows : Int → Int := fun _ => 0

/-- Window counts 3, 0 and 5 on workspaces 1, 2 and 3. -/
def windowsABC : Int → Int := fun w => if w = 1 then 3 else if w = 2 then 0 else 5

/-- Desk 1 with the given layout list, active index and validity flag. -/
def desk1 (layouts : List Layout) (idx : Nat) (valid : Bool) : VirtualDesk :=
  { id := 1, name := "1", layouts := layouts, m_activeLayout_idx := idx, activeIsValid := valid }

/-- The workspace ids held by a layout, in iteration order. -/
def Layout.values (l : Layout) : List Int := l.map Prod.snd

/-- Desk 1 with the single layout `l`, active and valid. -/
def deskOf (l : Layout) : VirtualDesk :=
  { id := 1, name := "1", layouts := [l], m_activeLayout_idx := 0, activeIsValid := true }

end VirtualDesk
namespace VirtualDesk

namespace Layout

theorem find_set (l : Layout) (k : String) (v : Int) (key : String) :
    (l.set k v).find key = if k = key then some v else l.find key := by
  induction l with
  | nil => simp [set, find]
  | cons e rest ih =>
    obtain ⟨k0, w⟩ := e
    by_cases h : k0 = k
    · subst h
      by_cases h2 : k0 = key <;> simp [set, find, h2]
    · by_cases h2 : k0 = key
      · subst h2
        simp [set, find, h, Ne.symm h]
      · simp [set, find, h, h2, ih]

theorem find_erase (l : Layout) (k key : String) :
    (l.erase k).find key = if k = key then none else l.find key := by
  induction l with
  | nil => simp [erase, find]
  | cons e rest ih =>
    obtain ⟨k0, w⟩ := e
    by_cases h : k0 = k
    · subst h
      by_cases h2 : k0 = key
      · subst h2
        simpa [erase] using ih
      · simp [erase, find, h2, ih]
    · by_cases h2 : k0 = key
      · subst h2
        simp [erase, find, h, Ne.symm h]
      · simp [erase, find, h, h2, ih]

theorem find_eq_none_iff (l : Layout) (key : String) :
    l.find key = none ↔ key ∉ l.keys := by
  induction l with
  | nil => simp [find, keys]
  | cons e rest ih =>
    obtain ⟨k0, w⟩ := e
    by_cases h : k0 = key
    · simp [find, keys, h]
    · simp only [find, h, if_false, ih]
      simp [keys, Ne.symm h]

theorem contains_iff (l : Layout) (key : String) :
    l.contains key = true ↔ key ∈ l.keys := by
  unfold contains
  rw [Option.isSome_iff_ne_none, Ne, find_eq_none_iff, not_not]

theorem size_set_of_not_mem (l : Layout) (k : String) (v : Int) (h : k ∉ l.keys) :
    (l.set k v).size = l.size + 1 := by
  induction l with
  | nil => simp [set, size]
  | cons e rest ih =>
    obtain ⟨k0, w⟩ := e
    have h0 : k0 ≠ k := by
      intro hk; apply h; simp [keys, hk]
    have h1 : k ∉ keys rest := by
      intro hk; apply h; simp only [keys, List.map_cons, List.mem_cons]; exact Or.inr hk
    have := ih h1
    simp only [size] at this
    simp [set, size, h0, this]

theorem keys_set_of_not_mem (l : Layout) (k : String) (v : Int) (h : k ∉ l.keys) :
    (l.set k v).keys = l.keys ++ [k] := by
  induction l with
  | nil => simp [set, keys]
  | cons e rest ih =>
    obtain ⟨k0, w⟩ := e
    have h0 : k0 ≠ k := by
      intro hk; apply h; simp [keys, hk]
    have h1 : k ∉ keys rest := by
      intro hk; apply h; simp only [keys, List.map_cons, List.mem_cons]; exact Or.inr hk
    have := ih h1
    simp only [keys] at this
    simp [set, keys, h0, this]

end Layout

/-- The assignments made by `n` iterations of the generation loop. -/
theorem generateLoop_spec (bound : Nat) (rest : List CMonitor) (i : Int) (layout : Layout)
    (h0 : 0 ≤ i) (hb : i + rest.length = bound) (hmax : (bound : Int) ≤ INT_MAX)
    (hnd : (rest.map (fun mon => monitorDesc mon.output)).Nodup)
    (hdisj : ∀ mon ∈ rest, monitorDesc mon.output ∉ layout.keys) :
    ∃ result, generateLoop bound rest i layout = some result ∧
      result.size = layout.size + rest.length ∧
      (∀ k, k ∉ rest.map (fun mon => monitorDesc mon.output) → result.find k = layout.find k) ∧
      (∀ (j : Nat) (mon : CMonitor), rest[j]? = some mon → result.find (monitorDesc mon.output) = some (i + j)) := by
  induction rest generalizing i layout with
  | nil =>
    refine ⟨layout, ?_, by simp, by simp, by simp⟩
    have : ¬ toSizeT i < bound := by
      simp only [List.length_nil, Nat.cast_zero, add_zero] at hb
      unfold toSizeT; unfold INT_MAX at hmax; omega
    simp [generateLoop, this]
  | cons mon rest ih =>
    simp only [List.length_cons, Nat.cast_add, Nat.cast_one] at hb
    have hlt : toSizeT i < bound := by
      unfold toSizeT; unfold INT_MAX at hmax; omega
    have hne : i ≠ INT_MAX := by
      unfold INT_MAX at hmax ⊢; omega
    simp only [List.map_cons, List.nodup_cons] at hnd
    have hk : monitorDesc mon.output ∉ layout.keys := hdisj mon (by simp)
    obtain ⟨result, hres, hsize, hfind, hidx⟩ :=
      ih (i + 1) (layout.set (monitorDesc mon.output) i) (by omega) (by omega) hnd.2 (by
        intro m hm
        rw [Layout.keys_set_of_not_mem _ _ _ hk]
        simp only [List.mem_append, List.mem_singleton, not_or]
        refine ⟨hdisj m (by simp [hm]), ?_⟩
        intro heq
        apply hnd.1
        rw [← heq]
        exact List.mem_map_of_mem _ hm)
    refine ⟨result, ?_, ?_, ?_, ?_⟩
    · simp [generateLoop, hlt, hne, hres]
    · rw [hsize, Layout.size_set_of_not_mem _ _ _ hk]
      simp only [List.length_cons]; omega
    · intro k hk'
      simp only [List.map_cons, List.mem_cons, not_or] at hk'
      rw [hfind k hk'.2, Layout.find_set]
      simp [Ne.symm hk'.1]
    · intro j m hj
      cases j with
      | zero =>
        simp only [List.getElem?_cons_zero, Option.some.injEq] at hj
        subst hj
        rw [hfind _ hnd.1, Layout.find_set]
        simp
      | succ j =>
        simp only [List.getElem?_cons_succ] at hj
        rw [hidx j m hj]
        congr 1
        push_cast
        ring

end VirtualDesk

namespace VirtualDesk

/-- C1 (counterexample): for desk id `INT_MAX = 2147483647 ≥ 1` and the two
enabled monitors `A`, `B` the first workspace id `(D-1)*2+1 = 4294967293` does
not fit an `int`; the loop variable starts at `-3`, the loop body never runs and
the generated layout is empty, so it does not send `A` to `(D-1)*2+1`. -/
theorem generateCurrentMonitorLayout_overflow_counterexample :
    (1 : Int) ≤ 2147483647 ∧
    (enabledDescs (compositorOf ["A", "B"] noWindows)).Nodup ∧
    generateCurrentMonitorLayout (compositorOf ["A", "B"] noWindows) 2147483647 = some [] ∧
    ¬ (∃ layout, generateCurrentMonitorLayout (compositorOf ["A", "B"] noWindows) 2147483647
          = some layout ∧ layout.size = 2 ∧
          layout.find "A" = some ((2147483647 - 1) * 2 + 1 + 0)) := by
  refine ⟨by decide, by decide, by decide, ?_⟩
  rintro ⟨layout, h, hsize, -⟩
  have h2 : generateCurrentMonitorLayout (compositorOf ["A", "B"] noWindows) 2147483647
      = some [] := by decide
  rw [h2] at h
  cases h
  simp [Layout.size] at hsize

/-- C1 (amended): for a desk id `D ≥ 1` and `n` enabled monitors with pairwise
distinct descriptions such that the ids stay within `int`,
`(D-1)*n + n < INT_MAX`, `generateCurrentMonitorLayout` returns a layout with
exactly `n` entries that sends the description of the `j`-th enabled monitor
to `(D-1)*n + 1 + j`. -/
theorem generateCurrentMonitorLayout_correct (g : CCompositor) (D : Int)
    (hD : 1 ≤ D)
    (hnd : (enabledDescs g).Nodup)
    (hfit : (D - 1) * (currentlyEnabledMonitors g).length
              + (currentlyEnabledMonitors g).length < INT_MAX) :
    ∃ layout, generateCurrentMonitorLayout g D = some layout ∧
      layout.size = (currentlyEnabledMonitors g).length ∧
      ∀ (j : Nat) (mon : CMonitor), (currentlyEnabledMonitors g)[j]? = some mon →
        layout.find (monitorDesc mon.output)
          = some ((D - 1) * (currentlyEnabledMonitors g).length + 1 + j) := by
  unfold generateCurrentMonitorLayout vdeskFirstWorkspace
  simp only
  generalize hms : currentlyEnabledMonitors g = ms at hfit
  have hnd' : (ms.map (fun mon => monitorDesc mon.output)).Nodup := by
    rw [← hms]; exact hnd
  obtain ⟨d, hd⟩ : ∃ d : Nat, D - 1 = d := ⟨(D - 1).toNat, by omega⟩
  rw [hd] at hfit ⊢
  have hfit' : d * ms.length + ms.length < 2147483647 := by
    unfold INT_MAX at hfit
    have : ((d * ms.length + ms.length : Nat) : Int) < 2147483647 := by
      push_cast; exact hfit
    exact_mod_cast this
  have hd64 : toSizeT (d : Int) * ms.length = d * ms.length := by
    rcases Nat.eq_zero_or_pos ms.length with h0 | hpos
    · simp [h0]
    · have hle : d ≤ d * ms.length := Nat.le_mul_of_pos_right d hpos
      have : toSizeT (d : Int) = d := by unfold toSizeT; omega
      rw [this]
  rw [hd64]
  generalize hp : d * ms.length = p at hfit'
  have hfirst : wrapSizeT (wrapSizeT p + 1) = p + 1 := by
    unfold wrapSizeT; omega
  have hbound : wrapSizeT (p + 1 + ms.length) = p + 1 + ms.length := by
    unfold wrapSizeT; omega
  have hi : toInt32 ((p + 1 : Nat) : Int) = (p : Int) + 1 := by
    unfold toInt32; omega
  rw [hfirst, hbound, hi]
  obtain ⟨result, hres, hsize, -, hidx⟩ :=
    generateLoop_spec (p + 1 + ms.length) ms ((p : Int) + 1) [] (by omega)
      (by push_cast; ring) (by unfold INT_MAX; omega) hnd' (by simp [Layout.keys])
  refine ⟨result, hres, by simpa [Layout.size] using hsize, ?_⟩
  intro j mon hj
  have hpd : ((d : Int) * ms.length) = p := by rw [← hp]; push_cast; ring
  rw [hidx j mon hj, hpd]

/-- C1 (witness): desk 2 with monitors `A`, `B`, `C`. -/
theorem generateCurrentMonitorLayout_correct_witness :
    ∃ layout, generateCurrentMonitorLayout (compositorOf ["A", "B", "C"] noWindows) 2 = some layout ∧
      layout.size = (currentlyEnabledMonitors (compositorOf ["A", "B", "C"] noWindows)).length ∧
      ∀ (j : Nat) (mon : CMonitor), (currentlyEnabledMonitors (compositorOf ["A", "B", "C"] noWindows))[j]? = some mon →
        layout.find (monitorDesc mon.output)
          = some ((2 - 1) * (currentlyEnabledMonitors (compositorOf ["A", "B", "C"] noWindows)).length
              + 1 + j) :=
  generateCurrentMonitorLayout_correct (compositorOf ["A", "B", "C"] noWindows) 2
    (by decide) (by decide) (by decide)

/-! ## The layout list and the active index -/

theorem mk'_idx_lt (g : CCompositor) (id : Int) (name : String) (valid : Bool) (s : VirtualDesk)
    (h : mk' g id name valid = some s) : s.m_activeLayout_idx < s.layouts.length := by
  unfold mk' at h
  cases hgen : generateCurrentMonitorLayout g id with
  | none => simp [hgen] at h
  | some layout =>
    simp only [hgen, Option.map_some', Option.some.injEq] at h
    subst h
    simp

theorem appendGenerated_eq (g : CCompositor) (s : VirtualDesk) (layouts : List Layout)
    (r : VirtualDesk × Layout) (h : appendGenerated g s layouts = some r) :
    generateCurrentMonitorLayout g s.id = some r.2 ∧
      r.1 = { s with layouts := layouts ++ [r.2], m_activeLayout_idx := layouts.length } := by
  unfold appendGenerated at h
  cases hgen : generateCurrentMonitorLayout g s.id with
  | none => simp [hgen] at h
  | some layout =>
    simp only [hgen, Option.map_some', Option.some.injEq] at h
    subst h
    simp

theorem searchActiveLayout_idx_lt (g : CCompositor) (ord : List String → List String)
    (conf : RememberLayoutConf) (s : VirtualDesk) (r : VirtualDesk × Layout)
    (h : searchActiveLayout g ord conf s = some r) :
    r.1.m_activeLayout_idx < r.1.layouts.length ∧ r.1.activeIsValid = s.activeIsValid ∧
      r.1.layouts[r.1.m_activeLayout_idx]? = some r.2 := by
  have happ : ∀ layouts, appendGenerated g s layouts = some r →
      r.1.m_activeLayout_idx < r.1.layouts.length ∧ r.1.activeIsValid = s.activeIsValid ∧
        r.1.layouts[r.1.m_activeLayout_idx]? = some r.2 := by
    intro layouts h'
    obtain ⟨-, h2⟩ := appendGenerated_eq g s layouts r h'
    rw [h2]
    simp
  unfold searchActiveLayout at h
  cases conf with
  | none => exact happ _ h
  | monitors =>
    simp only at h
    split at h
    · rename_i idx hidx
      cases hget : s.layouts[idx]? with
      | none => simp [hget] at h
      | some layout =>
        simp only [hget, Option.map_some', Option.some.injEq] at h
        subst h
        have := List.getElem?_eq_some.mp hget
        obtain ⟨hlt, -⟩ := this
        simp [hlt, hget]
    · exact happ _ h
  | size =>
    simp only at h
    split at h
    · rename_i idx hidx
      cases hget : s.layouts[idx]? with
      | none => simp [hget] at h
      | some layout =>
        simp only [hget, Option.map_some', Option.some.injEq] at h
        subst h
        obtain ⟨hlt, -⟩ := List.getElem?_eq_some.mp hget
        simp [hlt]
    · exact happ _ h

theorem activeLayout_idx_lt (g : CCompositor) (ord : List String → List String)
    (conf : RememberLayoutConf) (s : VirtualDesk) (r : VirtualDesk × Layout)
    (h : activeLayout g ord conf s = some r) :
    r.1.m_activeLayout_idx < r.1.layouts.length := by
  unfold activeLayout at h
  split at h
  · cases hget : s.layouts[s.m_activeLayout_idx]? with
    | none => simp [hget] at h
    | some layout =>
      simp only [hget, Option.map_some', Option.some.injEq] at h
      subst h
      exact (List.getElem?_eq_some.mp hget).1
  · cases hs : searchActiveLayout g ord conf { s with activeIsValid := true } with
    | none => simp [hs] at h
    | some r' =>
      simp only [hs, Option.some_bind] at h
      have h3 := (searchActiveLayout_idx_lt g ord conf _ r' hs).1
      cases hget : r'.1.layouts[r'.1.m_activeLayout_idx]? with
      | none => simp [hget] at h
      | some layout =>
        simp only [hget, Option.map_some', Option.some.injEq] at h
        subst h
        exact h3

theorem changeWorkspaceOnMonitor_shape (workspaceId : Int) (monitor : CMonitor) (s t : VirtualDesk)
    (h : changeWorkspaceOnMonitor workspaceId monitor s = some t) :
    t.m_activeLayout_idx = s.m_activeLayout_idx ∧ t.layouts.length = s.layouts.length := by
  unfold changeWorkspaceOnMonitor at h
  cases hget : s.layouts[s.m_activeLayout_idx]? with
  | none => simp [hget] at h
  | some layout =>
    simp only [hget, Option.map_some', Option.some.injEq] at h
    subst h
    simp

theorem resetLayout_shape (g : CCompositor) (s t : VirtualDesk) (h : resetLayout g s = some t) :
    t.m_activeLayout_idx = s.m_activeLayout_idx ∧ t.layouts.length = s.layouts.length := by
  unfold resetLayout at h
  cases hgen : generateCurrentMonitorLayout g s.id with
  | none => simp [hgen] at h
  | some layout =>
    simp only [hgen, Option.some_bind] at h
    split at h
    · simp only [Option.some.injEq] at h
      subst h
      simp
    · simp at h

theorem deleteInvalidMonitor_shape (g : CCompositor) (output : wlr_output) (s t : VirtualDesk)
    (h : deleteInvalidMonitor g output s = some t) :
    t.m_activeLayout_idx = s.m_activeLayout_idx ∧ t.layouts.length = s.layouts.length := by
  unfold deleteInvalidMonitor at h
  cases hget : s.layouts[s.m_activeLayout_idx]? with
  | none => simp [hget] at h
  | some layout =>
    simp only [hget, Option.some_bind] at h
    cases hloop : deleteOutputLoop g output layout layout with
    | none => simp [hloop] at h
    | some l =>
      simp only [hloop, Option.map_some', Option.some.injEq] at h
      subst h
      simp

theorem deleteInvalidMonitorRegistry_shape (g : CCompositor) (s t : VirtualDesk)
    (h : deleteInvalidMonitorRegistry g s = some t) :
    t.m_activeLayout_idx = s.m_activeLayout_idx ∧ t.layouts.length = s.layouts.length := by
  unfold deleteInvalidMonitorRegistry at h
  cases hget : s.layouts[s.m_activeLayout_idx]? with
  | none => simp [hget] at h
  | some layout =>
    simp only [hget, Option.some_bind] at h
    cases hloop : deleteStaleLoop g (currentlyEnabledMonitors g)
        ((currentlyEnabledMonitors g).map (fun mon => monitorDesc mon.output)) layout layout with
    | none => simp [hloop] at h
    | some l =>
      simp only [hloop, Option.map_some', Option.some.injEq] at h
      subst h
      simp

theorem deleteRepeat_shape (g : CCompositor) (monitor : wlr_output) (k : Nat) (s t : VirtualDesk)
    (h : deleteRepeat g monitor k s = some t) :
    t.m_activeLayout_idx = s.m_activeLayout_idx ∧ t.layouts.length = s.layouts.length := by
  induction k generalizing s with
  | zero =>
    simp only [deleteRepeat, Option.some.injEq] at h
    subst h
    simp
  | succ k ih =>
    simp only [deleteRepeat] at h
    cases hd : deleteInvalidMonitor g monitor s with
    | none => simp [hd] at h
    | some u =>
      simp only [hd, Option.some_bind] at h
      have h1 := deleteInvalidMonitor_shape g monitor s u hd
      have h2 := ih u h
      exact ⟨h2.1.trans h1.1, h2.2.trans h1.2⟩

/-- In every reachable state the active index is within the layout list. -/
theorem reachable_idx_lt (s : VirtualDesk) (h : Reachable s) :
    s.m_activeLayout_idx < s.layouts.length := by
  induction h with
  | construct g id name valid s h => exact mk'_idx_lt g id name valid s h
  | activeLayout g ord conf s r _ h _ => exact activeLayout_idx_lt g ord conf s r h
  | invalidate s _ ih => exact ih
  | changeWorkspace w m s t _ h ih =>
    have := changeWorkspaceOnMonitor_shape w m s t h
    omega
  | reset g s t _ h ih =>
    have := resetLayout_shape g s t h
    omega
  | deleteOutput g o s t _ h ih =>
    have := deleteInvalidMonitor_shape g o s t h
    omega
  | deleteRegistry g s t _ h ih =>
    have := deleteInvalidMonitorRegistry_shape g s t h
    omega
  | deleteAll g o s t _ h ih =>
    have := deleteRepeat_shape g o _ s t h
    omega

/-- C2: in every state reachable from the constructor by the public operations,
under any sequence of registry states, the layout list is non-empty and the
active index is smaller than its length whenever `activeIsValid` is true. -/
theorem reachable_layouts_nonempty_active_in_range (s : VirtualDesk) (h : Reachable s) :
    s.layouts ≠ [] ∧ (s.activeIsValid = true → s.m_activeLayout_idx < s.layouts.length) := by
  have hlt := reachable_idx_lt s h
  refine ⟨?_, fun _ => hlt⟩
  intro hnil
  rw [hnil] at hlt
  simp at hlt

/-- C2 (witness): the desk built on monitors `A`, `B`, invalidated, then asked
for its active layout under the `none` policy once `B` is gone. -/
theorem reachable_layouts_nonempty_active_in_range_witness :
    Reachable (deskOf [("A", 1)]) ∧
    ((deskOf [("A", 1)]).layouts ≠ [] ∧
      ((deskOf [("A", 1)]).activeIsValid = true →
        (deskOf [("A", 1)]).m_activeLayout_idx < (deskOf [("A", 1)]).layouts.length)) :=
  have hreach : Reachable (deskOf [("A", 1)]) :=
    Reachable.activeLayout (compositorOf ["A"] noWindows) insertionOrder RememberLayoutConf.none
      (invalidateActiveLayout (deskOf [("A", 1), ("B", 2)])) (deskOf [("A", 1)], [("A", 1)])
      (Reachable.invalidate _
        (Reachable.construct (compositorOf ["A", "B"] noWindows) 1 "1" true _ (by decide)))
      (by decide)
  ⟨hreach, reachable_layouts_nonempty_active_in_range _ hreach⟩

/-! ## `activeLayout` on a valid desk -/

/-- C7: on a desk whose `activeIsValid` is true, `activeLayout` returns the layout
at the active index and the state itself, whatever the policy and the registry;
and whenever a call of `activeLayout` returns, a second call (any policy, any
registry, no invalidation in between) returns the same layout and the same
state. -/
theorem activeLayout_valid_no_change (g : CCompositor) (ord : List String → List String)
    (conf : RememberLayoutConf) (s : VirtualDesk) (hvalid : s.activeIsValid = true) :
    activeLayout g ord conf s
        = s.layouts[s.m_activeLayout_idx]?.map (fun layout => (s, layout)) ∧
    ∀ (g1 g2 : CCompositor) (ord1 ord2 : List String → List String)
      (conf1 conf2 : RememberLayoutConf) (s0 : VirtualDesk) (r : VirtualDesk × Layout),
      activeLayout g1 ord1 conf1 s0 = some r → activeLayout g2 ord2 conf2 r.1 = some r := by
  constructor
  · unfold activeLayout
    simp [hvalid]
  · intro g1 g2 ord1 ord2 conf1 conf2 s0 r h
    unfold activeLayout at h
    split at h
    · rename_i hv
      cases hget : s0.layouts[s0.m_activeLayout_idx]? with
      | none => simp [hget] at h
      | some layout =>
        simp only [hget, Option.map_some', Option.some.injEq] at h
        subst h
        unfold activeLayout
        simp [hv, hget]
    · cases hs : searchActiveLayout g1 ord1 conf1 { s0 with activeIsValid := true } with
      | none => simp [hs] at h
      | some r' =>
        simp only [hs, Option.some_bind] at h
        obtain ⟨-, hv, hget⟩ := searchActiveLayout_idx_lt g1 ord1 conf1 _ r' hs
        simp only [hget, Option.map_some', Option.some.injEq] at h
        subst h
        unfold activeLayout
        simp only at hv
        simp [hv, hget]

/-- C7 (witness): a valid desk with layouts `{A:1}`, `{A:1, B:2}` and active
index 1, queried under the `none` policy while only `C` is enabled. -/
theorem activeLayout_valid_no_change_witness :
    activeLayout (compositorOf ["C"] noWindows) insertionOrder RememberLayoutConf.none
        { id := 1, name := "1", layouts := [[("A", 1)], [("A", 1), ("B", 2)]],
          m_activeLayout_idx := 1, activeIsValid := true }
      = some ({ id := 1, name := "1", layouts := [[("A", 1)], [("A", 1), ("B", 2)]],
                m_activeLayout_idx := 1, activeIsValid := true }, [("A", 1), ("B", 2)]) :=
  (activeLayout_valid_no_change (compositorOf ["C"] noWindows) insertionOrder
    RememberLayoutConf.none _ rfl).1

/-! ## `firstAvailableMonitor` -/

theorem firstAvailableLoop_none_lt (g : CCompositor) (rest : List CMonitor) (n : Int)
    (cur : Option CMonitor) (h : ∀ mon ∈ rest, n ≤ g.getWindowsOnWorkspace mon.activeWorkspace) :
    firstAvailableLoop g rest n cur = cur := by
  induction rest generalizing n cur with
  | nil => rfl
  | cons mon rest ih =>
    have h0 := h mon (by simp)
    have hn : ¬ g.getWindowsOnWorkspace mon.activeWorkspace < n := by omega
    simp only [firstAvailableLoop, hn, if_false]
    exact ih n cur (fun m hm => h m (by simp [hm]))

theorem firstAvailableLoop_some_lt (g : CCompositor) (rest : List CMonitor) (n : Int)
    (cur : Option CMonitor)
    (h : ∃ mon ∈ rest, g.getWindowsOnWorkspace mon.activeWorkspace < n) :
    ∃ (i : Nat) (chosen : CMonitor), rest[i]? = some chosen ∧
      firstAvailableLoop g rest n cur = some chosen ∧
      g.getWindowsOnWorkspace chosen.activeWorkspace < n ∧
      (∀ mon ∈ rest, g.getWindowsOnWorkspace chosen.activeWorkspace
          ≤ g.getWindowsOnWorkspace mon.activeWorkspace) ∧
      (∀ (j : Nat) (mon : CMonitor), j < i → rest[j]? = some mon →
          g.getWindowsOnWorkspace chosen.activeWorkspace
            < g.getWindowsOnWorkspace mon.activeWorkspace) := by
  induction rest generalizing n cur with
  | nil => simp at h
  | cons mon rest ih =>
    by_cases hlt : g.getWindowsOnWorkspace mon.activeWorkspace < n
    · simp only [firstAvailableLoop, hlt, if_true]
      by_cases hex : ∃ m ∈ rest, g.getWindowsOnWorkspace m.activeWorkspace
          < g.getWindowsOnWorkspace mon.activeWorkspace
      · obtain ⟨i, chosen, hi, hres, hc, hmin, hfirst⟩ :=
          ih (g.getWindowsOnWorkspace mon.activeWorkspace) (some mon) hex
        refine ⟨i + 1, chosen, by simpa using hi, hres, by omega, ?_, ?_⟩
        · intro m hm
          rcases List.mem_cons.mp hm with rfl | hm'
          · omega
          · exact hmin m hm'
        · intro j m hj hjm
          cases j with
          | zero =>
            simp only [List.getElem?_cons_zero, Option.some.injEq] at hjm
            subst hjm
            exact hc
          | succ j =>
            simp only [List.getElem?_cons_succ] at hjm
            exact hfirst j m (by omega) hjm
      · have hall : ∀ m ∈ rest, g.getWindowsOnWorkspace mon.activeWorkspace
            ≤ g.getWindowsOnWorkspace m.activeWorkspace := by
          intro m hm
          by_contra hcon
          exact hex ⟨m, hm, by omega⟩
        refine ⟨0, mon, by simp, firstAvailableLoop_none_lt g rest _ _ hall, hlt, ?_, ?_⟩
        · intro m hm
          rcases List.mem_cons.mp hm with rfl | hm'
          · exact le_refl _
          · exact hall m hm'
        · intro j m hj
          omega
    · simp only [firstAvailableLoop, hlt, if_false]
      have hex : ∃ m ∈ rest, g.getWindowsOnWorkspace m.activeWorkspace < n := by
        obtain ⟨m, hm, hmn⟩ := h
        rcases List.mem_cons.mp hm with rfl | hm'
        · exact absurd hmn hlt
        · exact ⟨m, hm', hmn⟩
      obtain ⟨i, chosen, hi, hres, hc, hmin, hfirst⟩ := ih n cur hex
      refine ⟨i + 1, chosen, by simpa using hi, hres, hc, ?_, ?_⟩
      · intro m hm
        rcases List.mem_cons.mp hm with rfl | hm'
        · omega
        · exact hmin m hm'
      · intro j m hj hjm
        cases j with
        | zero =>
          simp only [List.getElem?_cons_zero, Option.some.injEq] at hjm
          subst hjm
          omega
        | succ j =>
          simp only [List.getElem?_cons_succ] at hjm
          exact hfirst j m (by omega) hjm

/-- C8: when some monitor is enabled and every enabled monitor's active
workspace holds fewer than `INT_MAX` windows, `firstAvailableMonitor` returns the
enabled monitor at the least position `i` (registry order) whose window count is
minimal: no enabled monitor has fewer windows, and every enabled monitor before
position `i` has strictly more. -/
theorem firstAvailableMonitor_first_minimum (g : CCompositor) (arg : List CMonitor)
    (hne : currentlyEnabledMonitors g ≠ [])
    (hcount : ∀ mon ∈ currentlyEnabledMonitors g,
      g.getWindowsOnWorkspace mon.activeWorkspace < INT_MAX) :
    ∃ (i : Nat) (chosen : CMonitor), (currentlyEnabledMonitors g)[i]? = some chosen ∧
      firstAvailableMonitor g arg = some chosen ∧
      (∀ mon ∈ currentlyEnabledMonitors g, g.getWindowsOnWorkspace chosen.activeWorkspace
          ≤ g.getWindowsOnWorkspace mon.activeWorkspace) ∧
      (∀ (j : Nat) (mon : CMonitor), j < i → (currentlyEnabledMonitors g)[j]? = some mon →
          g.getWindowsOnWorkspace chosen.activeWorkspace
            < g.getWindowsOnWorkspace mon.activeWorkspace) := by
  obtain ⟨m, hm⟩ := List.exists_mem_of_ne_nil _ hne
  obtain ⟨i, chosen, hi, hres, -, hmin, hfirst⟩ :=
    firstAvailableLoop_some_lt g (currentlyEnabledMonitors g) INT_MAX none ⟨m, hm, hcount m hm⟩
  exact ⟨i, chosen, hi, hres, hmin, hfirst⟩

/-- C8 (witness): monitors `A`, `B`, `C` showing workspaces 1, 2, 3 with 3, 0 and
5 windows; the monitor chosen is `B`. -/
theorem firstAvailableMonitor_first_minimum_witness :
    firstAvailableMonitor (compositorOf ["A", "B", "C"] windowsABC) [] = some (enabledMonitor "B" 2) ∧
    ∃ (i : Nat) (chosen : CMonitor),
      (currentlyEnabledMonitors (compositorOf ["A", "B", "C"] windowsABC))[i]? = some chosen ∧
      firstAvailableMonitor (compositorOf ["A", "B", "C"] windowsABC) [] = some chosen ∧
      (∀ mon ∈ currentlyEnabledMonitors (compositorOf ["A", "B", "C"] windowsABC),
        (compositorOf ["A", "B", "C"] windowsABC).getWindowsOnWorkspace chosen.activeWorkspace
          ≤ (compositorOf ["A", "B", "C"] windowsABC).getWindowsOnWorkspace mon.activeWorkspace) ∧
      (∀ (j : Nat) (mon : CMonitor), j < i →
        (currentlyEnabledMonitors (compositorOf ["A", "B", "C"] windowsABC))[j]? = some mon →
        (compositorOf ["A", "B", "C"] windowsABC).getWindowsOnWorkspace chosen.activeWorkspace
          < (compositorOf ["A", "B", "C"] windowsABC).getWindowsOnWorkspace mon.activeWorkspace) :=
  ⟨by decide,
   firstAvailableMonitor_first_minimum (compositorOf ["A", "B", "C"] windowsABC) []
    (by decide) (by decide)⟩

/-! ## The fallback of `searchActiveLayout` -/

theorem searchByMonitors_none (ord : List String → List String) (currentSet : List String)
    (layouts : List Layout) (start : Nat)
    (h : ∀ layout ∈ layouts, matchesMonitors ord currentSet layout = false) :
    searchByMonitors ord currentSet layouts start = none := by
  induction layouts generalizing start with
  | nil => rfl
  | cons l rest ih =>
    simp only [searchByMonitors, h l (by simp)]
    exact ih (start + 1) (fun l' hl' => h l' (by simp [hl']))

theorem searchBySize_none (n : Nat) (layouts : List Layout) (start : Nat)
    (h : ∀ layout ∈ layouts, layout.size ≠ n) :
    searchBySize n layouts start = none := by
  induction layouts generalizing start with
  | nil => rfl
  | cons l rest ih =>
    simp only [searchBySize, h l (by simp), if_false]
    exact ih (start + 1) (fun l' hl' => h l' (by simp [hl']))

/-- C9: when `searchActiveLayout` selects no stored layout (under `monitors` no
layout passes the intersection test, under `size` no layout has as many entries
as there are enabled monitors, or the policy is `none`), it returns exactly when
`generateCurrentMonitorLayout` does, the layout returned is the generated one,
the new list is the kept layouts followed by it (all stored layouts unchanged
under `monitors` and `size`, none under `none`), it is the last element and the
active index points at it. -/
theorem searchActiveLayout_fallback_generates (g : CCompositor)
    (ord : List String → List String) (conf : RememberLayoutConf) (s : VirtualDesk)
    (hno : match conf with
      | RememberLayoutConf.monitors => ∀ layout ∈ s.layouts,
          matchesMonitors ord (setFromMonitors ord (currentlyEnabledMonitors g)) layout = false
      | RememberLayoutConf.size => ∀ layout ∈ s.layouts,
          layout.size ≠ (currentlyEnabledMonitors g).length
      | RememberLayoutConf.none => True) :
    searchActiveLayout g ord conf s
        = (generateCurrentMonitorLayout g s.id).map (fun generated =>
            ({ s with
                layouts := (if conf = RememberLayoutConf.none then [] else s.layouts) ++ [generated],
                m_activeLayout_idx :=
                  (if conf = RememberLayoutConf.none then [] else s.layouts).length },
              generated)) ∧
    ∀ r, searchActiveLayout g ord conf s = some r →
      generateCurrentMonitorLayout g s.id = some r.2 ∧
      r.1.layouts = (if conf = RememberLayoutConf.none then [] else s.layouts) ++ [r.2] ∧
      r.1.layouts.getLast? = some r.2 ∧
      r.1.layouts[r.1.m_activeLayout_idx]? = some r.2 := by
  have hfallback : searchActiveLayout g ord conf s
      = appendGenerated g s (if conf = RememberLayoutConf.none then [] else s.layouts) := by
    unfold searchActiveLayout
    cases conf with
    | none => simp
    | monitors =>
      simp only at hno
      simp [searchByMonitors_none ord _ s.layouts 0 hno]
    | size =>
      simp only at hno
      simp [searchBySize_none _ s.layouts 0 hno]
  constructor
  · rw [hfallback]
    unfold appendGenerated
    simp
  · intro r hr
    rw [hfallback] at hr
    obtain ⟨hgen, hstate⟩ := appendGenerated_eq g s _ r hr
    refine ⟨hgen, ?_, ?_, ?_⟩
    · rw [hstate]
    · rw [hstate]; simp
    · rw [hstate]; simp

/-- C9 (witness): the desk holding `{A:1}` under the `size` policy with monitors
`A`, `B` enabled; the layout `{A:1, B:2}` is generated and appended. -/
theorem searchActiveLayout_fallback_generates_witness :
    searchActiveLayout (compositorOf ["A", "B"] noWindows) insertionOrder RememberLayoutConf.size
        (desk1 [[("A", 1)]] 0 false)
      = some (desk1 [[("A", 1)], [("A", 1), ("B", 2)]] 1 false, [("A", 1), ("B", 2)]) := by
  have h := (searchActiveLayout_fallback_generates (compositorOf ["A", "B"] noWindows)
    insertionOrder RememberLayoutConf.size (desk1 [[("A", 1)]] 0 false) (by decide)).1
  rw [h]
  decide

/-! ## Set iteration orders -/

theorem foldl_usetInsert_spec (xs acc : List String) (hacc : acc.Nodup) :
    (xs.foldl usetInsert acc).Nodup ∧ ∀ x, x ∈ xs.foldl usetInsert acc ↔ x ∈ acc ∨ x ∈ xs := by
  induction xs generalizing acc with
  | nil => simp [hacc]
  | cons y ys ih =>
    simp only [List.foldl_cons]
    by_cases hy : y ∈ acc
    · have hins : usetInsert acc y = acc := by simp [usetInsert, hy]
      rw [hins]
      obtain ⟨hnd, hmem⟩ := ih acc hacc
      refine ⟨hnd, fun x => ?_⟩
      rw [hmem x]
      constructor
      · rintro (h | h)
        · exact Or.inl h
        · exact Or.inr (List.mem_cons_of_mem _ h)
      · rintro (h | h)
        · exact Or.inl h
        · rcases List.mem_cons.mp h with rfl | h'
          · exact Or.inl hy
          · exact Or.inr h'
    · have hins : usetInsert acc y = acc ++ [y] := by simp [usetInsert, hy]
      rw [hins]
      have hnd' : (acc ++ [y]).Nodup := by
        rw [List.nodup_append]
        refine ⟨hacc, by simp, ?_⟩
        intro a ha hb
        simp only [List.mem_singleton] at hb
        subst hb
        exact hy ha
      obtain ⟨hnd, hmem⟩ := ih (acc ++ [y]) hnd'
      refine ⟨hnd, fun x => ?_⟩
      rw [hmem x]
      simp only [List.mem_append, List.mem_singleton, List.mem_cons]
      tauto

theorem insertionOrder_isSetOrder : IsSetOrder insertionOrder := by
  intro xs
  obtain ⟨hnd, hmem⟩ := foldl_usetInsert_spec xs [] List.nodup_nil
  exact ⟨hnd, fun x => by simpa [insertionOrder, insertAll] using hmem x⟩

theorem reverseOrder_isSetOrder : IsSetOrder reverseOrder := by
  intro xs
  obtain ⟨hnd, hmem⟩ := foldl_usetInsert_spec xs [] List.nodup_nil
  refine ⟨?_, fun x => ?_⟩
  · unfold reverseOrder insertAll
    exact List.nodup_reverse.mpr hnd
  · unfold reverseOrder insertAll
    rw [List.mem_reverse]
    simpa using hmem x

/-! ## The `monitors` policy -/

/-- C3 (the code at the failing input): the stored layout `{A:1, B:2}` has both
keys among the enabled monitors `A`, `B`, `C`, yet it is not selected.  With the
key set iterating `B, A` and the current set iterating `A, B, C` the merge of
`std::set_intersection` outputs only `B`; with both sets iterating most recent
first (`B, A` and `C, B, A`) it outputs nothing; on the sequences `A, B` and
`B, C, A` (a chained hash table such as libstdc++'s) it outputs only `B`.  In the
first two cases the whole search is evaluated: a new layout `{A:1, B:2, C:3}` is
generated, appended and made active. -/
theorem searchActiveLayout_monitors_misses_stored_layout :
    IsSetOrder insertionOrder ∧ IsSetOrder reverseOrder ∧
    (∀ k ∈ Layout.keys [("B", 2), ("A", 1)],
        k ∈ enabledDescs (compositorOf ["A", "B", "C"] noWindows)) ∧
    set_intersection (insertionOrder (Layout.keys [("B", 2), ("A", 1)]))
        (setFromMonitors insertionOrder
          (currentlyEnabledMonitors (compositorOf ["A", "B", "C"] noWindows))) = ["B"] ∧
    searchActiveLayout (compositorOf ["A", "B", "C"] noWindows) insertionOrder
        RememberLayoutConf.monitors (desk1 [[("B", 2), ("A", 1)]] 0 true)
      = some (desk1 [[("B", 2), ("A", 1)], [("A", 1), ("B", 2), ("C", 3)]] 1 true,
              [("A", 1), ("B", 2), ("C", 3)]) ∧
    set_intersection (reverseOrder (Layout.keys [("A", 1), ("B", 2)]))
        (setFromMonitors reverseOrder
          (currentlyEnabledMonitors (compositorOf ["A", "B", "C"] noWindows))) = [] ∧
    searchActiveLayout (compositorOf ["A", "B", "C"] noWindows) reverseOrder
        RememberLayoutConf.monitors (desk1 [[("A", 1), ("B", 2)]] 0 true)
      = some (desk1 [[("A", 1), ("B", 2)], [("A", 1), ("B", 2), ("C", 3)]] 1 true,
              [("A", 1), ("B", 2), ("C", 3)]) ∧
    set_intersection ["A", "B"] ["B", "C", "A"] = ["B"] :=
  ⟨insertionOrder_isSetOrder, reverseOrder_isSetOrder, by decide, by decide, by decide,
    by decide, by decide, by decide⟩

/-! ## The `size` policy and `checkAndAdaptLayout` -/

theorem searchBySize_first (n : Nat) (layouts : List Layout) (start idx : Nat) (layout : Layout)
    (hidx : layouts[idx]? = some layout) (hsize : layout.size = n)
    (hfirst : ∀ (j : Nat) (l : Layout), j < idx → layouts[j]? = some l → l.size ≠ n) :
    searchBySize n layouts start = some (start + idx) := by
  induction layouts generalizing start idx with
  | nil => simp at hidx
  | cons l rest ih =>
    cases idx with
    | zero =>
      simp only [List.getElem?_cons_zero, Option.some.injEq] at hidx
      subst hidx
      simp [searchBySize, hsize]
    | succ idx =>
      have hl : l.size ≠ n := hfirst 0 l (by omega) (by simp)
      simp only [List.getElem?_cons_succ] at hidx
      simp only [searchBySize, hl, if_false]
      rw [ih (start + 1) idx hidx (fun j l' hj hjl => hfirst (j + 1) l' (by omega) (by simpa using hjl))]
      congr 1
      omega

theorem find?_first_unused (p : CMonitor → Bool) (pre post : List CMonitor) (mon : CMonitor)
    (hpre : ∀ m ∈ pre, p m = false) (hmon : p mon = true) :
    (pre ++ mon :: post).find? p = some mon := by
  induction pre with
  | nil => simp [hmon]
  | cons m rest ih =>
    have hm : p m = false := hpre m (by simp)
    simp only [List.cons_append, List.find?_cons, hm]
    exact ih (fun m' hm' => hpre m' (by simp [hm']))

theorem checkAndAdaptLoop_single (g : CCompositor) (copy layout : Layout) (st : String) (w : Int)
    (mon : CMonitor)
    (hfind : copy.find st = some w) (hst : notEnabled g st = true)
    (huniq : ∀ k ∈ copy.keys, notEnabled g k = true → k = st)
    (hmon : (currentlyEnabledMonitors g).find?
        (fun m => !layout.contains (monitorDesc m.output)) = some mon) :
    checkAndAdaptLoop g copy layout = (layout.set (monitorDesc mon.output) w).erase st := by
  induction copy with
  | nil => simp [Layout.find] at hfind
  | cons e rest ih =>
    obtain ⟨k, v⟩ := e
    by_cases hk : k = st
    · subst hk
      simp only [Layout.find, if_true, Option.some.injEq] at hfind
      subst hfind
      simp [checkAndAdaptLoop, hst, hmon]
    · have hne : notEnabled g k = false := by
        cases hb : notEnabled g k with
        | false => rfl
        | true => exact absurd (huniq k (by simp [Layout.keys]) hb) hk
      simp only [Layout.find, hk, if_false] at hfind
      simp only [checkAndAdaptLoop, hne]
      exact ih hfind (fun k' hk' hs => huniq k' (by
        simp only [Layout.keys, List.map_cons, List.mem_cons]
        exact Or.inr hk') hs)

theorem getElem?_set_ne' {α : Type} (l : List α) (i j : Nat) (a : α) (h : j ≠ i) :
    (l.set i a)[j]? = l[j]? := by
  simp [List.getElem?_set, Ne.symm h]

theorem getElem?_set_self' {α : Type} (l : List α) (i : Nat) (a b : α) (h : l[i]? = some b) :
    (l.set i a)[i]? = some a := by
  obtain ⟨hlt, -⟩ := List.getElem?_eq_some.mp h
  simp [List.getElem?_set, hlt]

/-- C4: under the `size` policy, when the first stored layout with as many
entries as there are enabled monitors (position `idx`) has exactly one key `st`
(with workspace id `w`) that does not resolve to an enabled monitor, and `mon` is
the first enabled monitor whose description is not a key of that layout, then
`searchActiveLayout` makes `idx` the active index and returns the repaired layout:
no entry for `st`, the description of `mon` mapped to `w`, every other key as
before; the other layouts are untouched. -/
theorem searchActiveLayout_size_repairs_single (g : CCompositor)
    (ord : List String → List String) (s : VirtualDesk) (idx : Nat) (layout : Layout)
    (st : String) (w : Int) (pre post : List CMonitor) (mon : CMonitor)
    (hidx : s.layouts[idx]? = some layout)
    (hsize : layout.size = (currentlyEnabledMonitors g).length)
    (hfirst : ∀ (j : Nat) (l : Layout), j < idx → s.layouts[j]? = some l →
      l.size ≠ (currentlyEnabledMonitors g).length)
    (hfind : layout.find st = some w)
    (hst : notEnabled g st = true)
    (huniq : ∀ k ∈ layout.keys, notEnabled g k = true → k = st)
    (hsplit : currentlyEnabledMonitors g = pre ++ mon :: post)
    (hpre : ∀ m ∈ pre, layout.contains (monitorDesc m.output) = true)
    (hmon : layout.contains (monitorDesc mon.output) = false) :
    ∃ (t : VirtualDesk) (repaired : Layout),
      searchActiveLayout g ord RememberLayoutConf.size s = some (t, repaired) ∧
      t.m_activeLayout_idx = idx ∧
      t.layouts[idx]? = some repaired ∧
      t.layouts.length = s.layouts.length ∧
      (∀ j, j ≠ idx → t.layouts[j]? = s.layouts[j]?) ∧
      repaired.find st = none ∧
      repaired.find (monitorDesc mon.output) = some w ∧
      (∀ k, k ≠ st → k ≠ monitorDesc mon.output → repaired.find k = layout.find k) := by
  have hsearch := searchBySize_first _ s.layouts 0 idx layout hidx hsize hfirst
  have hunused : (currentlyEnabledMonitors g).find?
      (fun m => !layout.contains (monitorDesc m.output)) = some mon := by
    rw [hsplit]
    exact find?_first_unused _ pre post mon (fun m hm => by simp [hpre m hm]) (by simp [hmon])
  have hloop : checkAndAdaptLayout g layout
      = (layout.set (monitorDesc mon.output) w).erase st :=
    checkAndAdaptLoop_single g layout layout st w mon hfind hst huniq hunused
  have hne : monitorDesc mon.output ≠ st := by
    intro heq
    rw [heq] at hmon
    simp [Layout.contains, hfind] at hmon
  refine ⟨{ s with layouts := s.layouts.set idx (checkAndAdaptLayout g layout),
                   m_activeLayout_idx := idx }, checkAndAdaptLayout g layout, ?_, rfl, ?_, ?_, ?_,
          ?_, ?_, ?_⟩
  · unfold searchActiveLayout
    simp only [hsearch, Nat.zero_add, hidx, Option.map_some']
  · exact getElem?_set_self' _ _ _ _ hidx
  · simp
  · intro j hj
    exact getElem?_set_ne' _ _ _ _ hj
  · rw [hloop, Layout.find_erase]; simp
  · rw [hloop, Layout.find_erase, Layout.find_set]; simp [Ne.symm hne]
  · intro k hk1 hk2
    rw [hloop, Layout.find_erase, Layout.find_set]
    simp [Ne.symm hk1, Ne.symm hk2]

/-- C4 (witness): stored `{A:1, B:2}` with `A`, `C` enabled becomes `{A:1, C:2}`. -/
theorem searchActiveLayout_size_repairs_single_witness :
    searchActiveLayout (compositorOf ["A", "C"] noWindows) insertionOrder RememberLayoutConf.size
        (desk1 [[("A", 1), ("B", 2)]] 0 false)
      = some (desk1 [[("A", 1), ("C", 2)]] 0 false, [("A", 1), ("C", 2)]) ∧
    ∃ (t : VirtualDesk) (repaired : Layout),
      searchActiveLayout (compositorOf ["A", "C"] noWindows) insertionOrder
        RememberLayoutConf.size (desk1 [[("A", 1), ("B", 2)]] 0 false) = some (t, repaired) ∧
      t.m_activeLayout_idx = 0 ∧
      t.layouts[0]? = some repaired ∧
      t.layouts.length = (desk1 [[("A", 1), ("B", 2)]] 0 false).layouts.length ∧
      (∀ j, j ≠ 0 → t.layouts[j]? = (desk1 [[("A", 1), ("B", 2)]] 0 false).layouts[j]?) ∧
      repaired.find "B" = none ∧
      repaired.find (monitorDesc (enabledMonitor "C" 2).output) = some 2 ∧
      (∀ k, k ≠ "B" → k ≠ monitorDesc (enabledMonitor "C" 2).output →
        repaired.find k = Layout.find [("A", 1), ("B", 2)] k) :=
  ⟨by decide,
   searchActiveLayout_size_repairs_single (compositorOf ["A", "C"] noWindows) insertionOrder
    (desk1 [[("A", 1), ("B", 2)]] 0 false) 0 [("A", 1), ("B", 2)] "B" 2
    [enabledMonitor "A" 1] [] (enabledMonitor "C" 2)
    (by decide) (by decide) (fun j _ hj => absurd hj (Nat.not_lt_zero j)) (by decide) (by decide)
    (by decide) (by decide) (by decide) (by decide)⟩

/-- C5 (the code at the failing input): stored `{A:1, B:2}` with `C`, `D` enabled.
The sizes agree, so the layout is selected; `checkAndAdaptLayout` re-keys the
first stale entry it meets to `C` and returns at once.  Whichever of the two
entries is iterated first, the layout returned still has a key (`B`, or `A`)
that is not the description of an enabled monitor. -/
theorem searchActiveLayout_size_keeps_stale_key :
    searchActiveLayout (compositorOf ["C", "D"] noWindows) insertionOrder RememberLayoutConf.size
        (desk1 [[("A", 1), ("B", 2)]] 0 false)
      = some (desk1 [[("B", 2), ("C", 1)]] 0 false, [("B", 2), ("C", 1)]) ∧
    searchActiveLayout (compositorOf ["C", "D"] noWindows) insertionOrder RememberLayoutConf.size
        (desk1 [[("B", 2), ("A", 1)]] 0 false)
      = some (desk1 [[("A", 1), ("C", 2)]] 0 false, [("A", 1), ("C", 2)]) ∧
    "B" ∉ enabledDescs (compositorOf ["C", "D"] noWindows) ∧
    notEnabled (compositorOf ["C", "D"] noWindows) "B" = true ∧
    "A" ∉ enabledDescs (compositorOf ["C", "D"] noWindows) ∧
    notEnabled (compositorOf ["C", "D"] noWindows) "A" = true := by
  decide

/-! ## `checkAndAdaptLayout` without a replacement candidate -/

theorem checkAndAdaptLoop_drop (g : CCompositor) (rest layout : Layout)
    (hall : ∀ m ∈ currentlyEnabledMonitors g, layout.contains (monitorDesc m.output) = true)
    (hreg : ∀ m ∈ currentlyEnabledMonitors g, notEnabled g (monitorDesc m.output) = false) :
    ∀ k, (checkAndAdaptLoop g rest layout).find k
      = if k ∈ rest.keys ∧ notEnabled g k = true then none else layout.find k := by
  induction rest generalizing layout with
  | nil => intro k; simp [checkAndAdaptLoop, Layout.keys]
  | cons e rest ih =>
    obtain ⟨d, wid⟩ := e
    intro k
    have hmem : k ∈ Layout.keys ((d, wid) :: rest) ↔ k = d ∨ k ∈ Layout.keys rest := by
      simp [Layout.keys]
    cases hd : notEnabled g d with
    | true =>
      have hnone : (currentlyEnabledMonitors g).find?
          (fun m => !layout.contains (monitorDesc m.output)) = none := by
        rw [List.find?_eq_none]
        intro m hm
        simp [hall m hm]
      have hall' : ∀ m ∈ currentlyEnabledMonitors g,
          (layout.erase d).contains (monitorDesc m.output) = true := by
        intro m hm
        have hne : d ≠ monitorDesc m.output := by
          intro heq
          have := hreg m hm
          rw [← heq, hd] at this
          exact Bool.noConfusion this
        have := hall m hm
        unfold Layout.contains at this ⊢
        rw [Layout.find_erase]
        simpa [hne] using this
      simp only [checkAndAdaptLoop, hd, if_true, hnone]
      rw [ih (layout.erase d) hall' k, Layout.find_erase]
      by_cases hkd : d = k
      · subst hkd
        simp [hmem, hd]
      · have hkd' : k ≠ d := Ne.symm hkd
        by_cases hs : notEnabled g k = true <;> by_cases hm : k ∈ Layout.keys rest <;>
          simp [hmem, hs, hm, hkd, hkd']
    | false =>
      simp only [checkAndAdaptLoop, hd, Bool.false_eq_true, if_false]
      rw [ih layout hall k]
      by_cases hkd : d = k
      · subst hkd
        simp [hmem, hd]
      · have hkd' : k ≠ d := Ne.symm hkd
        by_cases hs : notEnabled g k = true <;> by_cases hm : k ∈ Layout.keys rest <;>
          simp [hmem, hs, hm, hkd, hkd']

/-- With the descriptor lookup `lookupByDesc` and pairwise distinct descriptions
in the registry, the description of an enabled monitor resolves to an enabled
monitor. -/
theorem mkCompositor_resolves_enabled (mons : List CMonitor) (windows : Int → Int)
    (hnd : (mons.map (fun m => monitorDesc m.output)).Nodup) :
    ∀ m ∈ currentlyEnabledMonitors (mkCompositor mons windows),
      notEnabled (mkCompositor mons windows) (monitorDesc m.output) = false := by
  intro m hm
  have hm' : m ∈ mons ∧ m.m_bEnabled = true := by
    simpa [currentlyEnabledMonitors, mkCompositor] using hm
  have hfound : lookupByDesc mons (monitorDesc m.output) = some m := by
    unfold lookupByDesc
    induction mons with
    | nil => simp at hm'
    | cons a rest ih =>
      simp only [List.map_cons, List.nodup_cons] at hnd
      by_cases ha : a = m
      · subst ha
        simp
      · have hmr : m ∈ rest := by
          rcases List.mem_cons.mp hm'.1 with h | h
          · exact absurd h.symm ha
          · exact h
        have hne : monitorDesc a.output ≠ monitorDesc m.output := by
          intro heq
          apply hnd.1
          rw [heq]
          exact List.mem_map_of_mem _ hmr
        simp only [List.find?_cons, hne, decide_False]
        exact ih hnd.2 (by
          simp only [currentlyEnabledMonitors, mkCompositor, List.mem_filter]
          exact ⟨hmr, hm'.2⟩) ⟨hmr, hm'.2⟩
  simp [notEnabled, mkCompositor, hfound, hm'.2]

/-- C6: when every enabled monitor's description is already a key of the layout
(and, as the registry lookup guarantees, resolves to an enabled monitor),
`checkAndAdaptLayout` removes exactly the entries whose key does not resolve to
an enabled monitor: such a key is absent afterwards and every other key keeps
its workspace id. -/
theorem checkAndAdaptLayout_drops_unresolved (g : CCompositor) (layout : Layout)
    (hall : ∀ m ∈ currentlyEnabledMonitors g, layout.contains (monitorDesc m.output) = true)
    (hreg : ∀ m ∈ currentlyEnabledMonitors g, notEnabled g (monitorDesc m.output) = false) :
    ∀ k, (checkAndAdaptLayout g layout).find k
      = if notEnabled g k = true then none else layout.find k := by
  intro k
  unfold checkAndAdaptLayout
  rw [checkAndAdaptLoop_drop g layout layout hall hreg k]
  by_cases hk : k ∈ layout.keys
  · simp [hk]
  · have : layout.find k = none := (Layout.find_eq_none_iff layout k).mpr hk
    simp [hk, this]

/-- C6 (witness): `{A:1, B:2}` with only `A` enabled becomes `{A:1}`. -/
theorem checkAndAdaptLayout_drops_unresolved_witness :
    checkAndAdaptLayout (compositorOf ["A"] noWindows) [("A", 1), ("B", 2)] = [("A", 1)] ∧
    ∀ k, (checkAndAdaptLayout (compositorOf ["A"] noWindows) [("A", 1), ("B", 2)]).find k
      = if notEnabled (compositorOf ["A"] noWindows) k = true then none
        else Layout.find [("A", 1), ("B", 2)] k :=
  ⟨by decide,
   checkAndAdaptLayout_drops_unresolved (compositorOf ["A"] noWindows) [("A", 1), ("B", 2)]
    (by decide) (by decide)⟩

/-! ## `deleteInvalidMonitor(output)` -/

theorem firstAvailableLoop_mem (g : CCompositor) (rest : List CMonitor) (n : Int)
    (cur : Option CMonitor) (mon : CMonitor)
    (h : firstAvailableLoop g rest n cur = some mon) : mon ∈ rest ∨ cur = some mon := by
  induction rest generalizing n cur with
  | nil => exact Or.inr h
  | cons m rest ih =>
    simp only [firstAvailableLoop] at h
    split at h
    · rcases ih _ _ h with h' | h'
      · exact Or.inl (List.mem_cons_of_mem _ h')
      · simp only [Option.some.injEq] at h'
        subst h'
        exact Or.inl (List.mem_cons_self _ _)
    · rcases ih _ _ h with h' | h'
      · exact Or.inl (List.mem_cons_of_mem _ h')
      · exact Or.inr h'

theorem firstAvailableMonitor_mem (g : CCompositor) (arg : List CMonitor) (mon : CMonitor)
    (h : firstAvailableMonitor g arg = some mon) : mon ∈ currentlyEnabledMonitors g := by
  rcases firstAvailableLoop_mem g _ _ _ mon h with h' | h'
  · exact h'
  · exact Option.noConfusion h'

theorem deleteOutputLoop_absent (g : CCompositor) (output : wlr_output) (rest layout : Layout)
    (h : monitorDesc output ∉ rest.keys) : deleteOutputLoop g output rest layout = some layout := by
  induction rest with
  | nil => rfl
  | cons e rest ih =>
    obtain ⟨k, v⟩ := e
    simp only [Layout.keys, List.map_cons, List.mem_cons, not_or] at h
    simp only [deleteOutputLoop, h.1, if_false]
    exact ih h.2

theorem deleteOutputLoop_present (g : CCompositor) (output : wlr_output) (copy layout : Layout)
    (w : Int) (mon : CMonitor)
    (hnd : copy.keys.Nodup) (hfind : copy.find (monitorDesc output) = some w)
    (hchosen : firstAvailableMonitor g (currentlyEnabledMonitors g) = some mon) :
    deleteOutputLoop g output copy layout
      = some ((layout.set (monitorDesc mon.output) w).erase (monitorDesc output)) := by
  induction copy with
  | nil => simp [Layout.find] at hfind
  | cons e rest ih =>
    obtain ⟨k, v⟩ := e
    simp only [Layout.keys, List.map_cons, List.nodup_cons] at hnd
    by_cases hk : monitorDesc output = k
    · simp only [Layout.find, hk, if_true, Option.some.injEq] at hfind
      subst hfind
      have habs : monitorDesc output ∉ Layout.keys rest := by rw [hk]; exact hnd.1
      simp only [deleteOutputLoop, hk, if_true, hchosen]
      rw [← hk]
      exact deleteOutputLoop_absent g output rest _ habs
    · have hk' : ¬ k = monitorDesc output := fun h => hk h.symm
      simp only [Layout.find, hk', if_false] at hfind
      simp only [deleteOutputLoop, hk, if_false]
      exact ih hnd.2 hfind

/-- C10: let the active layout map `d`, the description of the removed output,
to `w`, let `d` be the description of no enabled monitor, and let `mon` be the
monitor chosen by `firstAvailableMonitor` (description `r`).  Then
`deleteInvalidMonitor(output)` completes; afterwards the active layout has no key
`d`, maps `r` to `w`, agrees with the old one on every key other than `d` and `r`,
and every non-active layout is unchanged. -/
theorem deleteInvalidMonitor_output_rekeys (g : CCompositor) (output : wlr_output)
    (s : VirtualDesk) (layout : Layout) (w : Int) (mon : CMonitor)
    (hget : s.layouts[s.m_activeLayout_idx]? = some layout)
    (hnd : layout.keys.Nodup)
    (hfind : layout.find (monitorDesc output) = some w)
    (hgone : monitorDesc output ∉ enabledDescs g)
    (hchosen : firstAvailableMonitor g (currentlyEnabledMonitors g) = some mon) :
    ∃ (t : VirtualDesk) (edited : Layout),
      deleteInvalidMonitor g output s = some t ∧
      t.m_activeLayout_idx = s.m_activeLayout_idx ∧
      t.layouts[t.m_activeLayout_idx]? = some edited ∧
      edited.find (monitorDesc output) = none ∧
      edited.find (monitorDesc mon.output) = some w ∧
      (∀ k, k ≠ monitorDesc output → k ≠ monitorDesc mon.output →
        edited.find k = layout.find k) ∧
      t.layouts.length = s.layouts.length ∧
      (∀ j, j ≠ s.m_activeLayout_idx → t.layouts[j]? = s.layouts[j]?) := by
  have hloop := deleteOutputLoop_present g output layout layout w mon hnd hfind hchosen
  have hne : monitorDesc mon.output ≠ monitorDesc output := by
    intro heq
    apply hgone
    rw [← heq]
    exact List.mem_map_of_mem _ (firstAvailableMonitor_mem g _ mon hchosen)
  generalize hedit : (layout.set (monitorDesc mon.output) w).erase (monitorDesc output) = edited
    at hloop
  have hf : ∀ k, edited.find k = if monitorDesc output = k then none
      else if monitorDesc mon.output = k then some w else layout.find k := by
    intro k
    rw [← hedit, Layout.find_erase, Layout.find_set]
  refine ⟨{ s with layouts := s.layouts.set s.m_activeLayout_idx edited }, edited,
          ?_, rfl, ?_, ?_, ?_, ?_, ?_, ?_⟩
  · unfold deleteInvalidMonitor
    simp [hget, hloop]
  · exact getElem?_set_self' _ _ _ _ hget
  · rw [hf]; simp
  · rw [hf]; simp [Ne.symm hne]
  · intro k hk1 hk2
    rw [hf]
    simp [Ne.symm hk1, Ne.symm hk2]
  · simp
  · intro j hj
    exact getElem?_set_ne' _ _ _ _ hj

/-- C10 (witness): layouts `{A:1, B:2}` (active) and `{A:7, B:8}`, output `B`
removed, monitors `A` (3 windows) and `C` (0 windows) enabled: the active layout
becomes `{A:1, C:2}`, the other one is untouched. -/
theorem deleteInvalidMonitor_output_rekeys_witness :
    deleteInvalidMonitor (compositorOf ["A", "C"] windowsABC) { description := some "B" }
        (desk1 [[("A", 1), ("B", 2)], [("A", 7), ("B", 8)]] 0 true)
      = some (desk1 [[("A", 1), ("C", 2)], [("A", 7), ("B", 8)]] 0 true) ∧
    ∃ (t : VirtualDesk) (edited : Layout),
      deleteInvalidMonitor (compositorOf ["A", "C"] windowsABC) { description := some "B" }
        (desk1 [[("A", 1), ("B", 2)], [("A", 7), ("B", 8)]] 0 true) = some t ∧
      t.m_activeLayout_idx
        = (desk1 [[("A", 1), ("B", 2)], [("A", 7), ("B", 8)]] 0 true).m_activeLayout_idx ∧
      t.layouts[t.m_activeLayout_idx]? = some edited ∧
      edited.find (monitorDesc { description := some "B" }) = none ∧
      edited.find (monitorDesc (enabledMonitor "C" 2).output) = some 2 ∧
      (∀ k, k ≠ monitorDesc { description := some "B" } →
        k ≠ monitorDesc (enabledMonitor "C" 2).output →
        edited.find k = Layout.find [("A", 1), ("B", 2)] k) ∧
      t.layouts.length
        = (desk1 [[("A", 1), ("B", 2)], [("A", 7), ("B", 8)]] 0 true).layouts.length ∧
      (∀ j, j ≠ (desk1 [[("A", 1), ("B", 2)], [("A", 7), ("B", 8)]] 0 true).m_activeLayout_idx →
        t.layouts[j]? = (desk1 [[("A", 1), ("B", 2)], [("A", 7), ("B", 8)]] 0 true).layouts[j]?) :=
  ⟨by decide,
   deleteInvalidMonitor_output_rekeys (compositorOf ["A", "C"] windowsABC)
    { description := some "B" } (desk1 [[("A", 1), ("B", 2)], [("A", 7), ("B", 8)]] 0 true)
    [("A", 1), ("B", 2)] 2 (enabledMonitor "C" 2)
    (by decide) (by decide) (by decide) (by decide) (by decide)⟩

/-! ## `deleteInvalidMonitorOnAllLayouts` -/

/-- C11 (the code at the failing input): layouts `{A:1, B:2}` (active) and
`{A:7, B:8}`, output `B` removed, monitors `A` and `C` enabled.  Both calls of
`deleteInvalidMonitor` made by the loop edit the active layout; the second
layout still has the key `B` afterwards. -/
theorem deleteInvalidMonitorOnAllLayouts_keeps_key_in_inactive :
    monitorDesc { description := some "B" } ∉ enabledDescs (compositorOf ["A", "C"] windowsABC) ∧
    deleteInvalidMonitorOnAllLayouts (compositorOf ["A", "C"] windowsABC) { description := some "B" }
        (desk1 [[("A", 1), ("B", 2)], [("A", 7), ("B", 8)]] 0 true)
      = some (desk1 [[("A", 1), ("C", 2)], [("A", 7), ("B", 8)]] 0 true) ∧
    Layout.find [("A", 7), ("B", 8)] (monitorDesc { description := some "B" }) = some 8 := by
  decide

theorem deleteOutputLoop_keeps_absent (g : CCompositor) (output : wlr_output)
    (rest layout result : Layout) (habs : monitorDesc output ∉ layout.keys)
    (h : deleteOutputLoop g output rest layout = some result) :
    monitorDesc output ∉ result.keys := by
  induction rest generalizing layout with
  | nil =>
    simp only [deleteOutputLoop, Option.some.injEq] at h
    subst h
    exact habs
  | cons e rest ih =>
    obtain ⟨k, v⟩ := e
    simp only [deleteOutputLoop] at h
    split at h
    · split at h
      · exact Option.noConfusion h
      · rename_i newMonitor _
        refine ih _ ?_ h
        rw [← Layout.find_eq_none_iff, Layout.find_erase]
        simp_all
    · exact ih layout habs h

theorem deleteOutputLoop_erases (g : CCompositor) (output : wlr_output)
    (rest layout result : Layout) (hmem : monitorDesc output ∈ rest.keys)
    (h : deleteOutputLoop g output rest layout = some result) :
    monitorDesc output ∉ result.keys := by
  induction rest generalizing layout with
  | nil => simp [Layout.keys] at hmem
  | cons e rest ih =>
    obtain ⟨k, v⟩ := e
    simp only [deleteOutputLoop] at h
    by_cases hk : monitorDesc output = k
    · rw [if_pos hk] at h
      cases hc : firstAvailableMonitor g (currentlyEnabledMonitors g) with
      | none => simp [hc] at h
      | some newMonitor =>
        simp only [hc] at h
        refine deleteOutputLoop_keeps_absent g output rest _ result ?_ h
        rw [← Layout.find_eq_none_iff, Layout.find_erase]
        simp [hk]
    · rw [if_neg hk] at h
      have hmem' : monitorDesc output ∈ Layout.keys rest := by
        simp only [Layout.keys, List.map_cons, List.mem_cons] at hmem
        rcases hmem with h' | h'
        · exact absurd h' hk
        · exact h'
      exact ih layout hmem' h

/-- A second call of `deleteInvalidMonitor(output)` right after a first one
changes nothing. -/
theorem deleteInvalidMonitor_twice (g : CCompositor) (output : wlr_output) (s t : VirtualDesk)
    (h : deleteInvalidMonitor g output s = some t) : deleteInvalidMonitor g output t = some t := by
  unfold deleteInvalidMonitor at h
  cases hget : s.layouts[s.m_activeLayout_idx]? with
  | none => simp [hget] at h
  | some layout =>
    simp only [hget, Option.some_bind] at h
    cases hloop : deleteOutputLoop g output layout layout with
    | none => simp [hloop] at h
    | some result =>
      simp only [hloop, Option.map_some', Option.some.injEq] at h
      have habs : monitorDesc output ∉ result.keys := by
        by_cases hmem : monitorDesc output ∈ layout.keys
        · exact deleteOutputLoop_erases g output layout layout result hmem hloop
        · have := deleteOutputLoop_absent g output layout layout hmem
          rw [this] at hloop
          simp only [Option.some.injEq] at hloop
          subst hloop
          exact hmem
      have hget' : t.layouts[t.m_activeLayout_idx]? = some result := by
        subst h
        exact getElem?_set_self' _ _ _ _ hget
      unfold deleteInvalidMonitor
      simp only [hget', Option.some_bind,
        deleteOutputLoop_absent g output result result habs, Option.map_some', Option.some.injEq]
      subst h
      simp

theorem deleteRepeat_fixed (g : CCompositor) (monitor : wlr_output) (k : Nat) (t : VirtualDesk)
    (h : deleteInvalidMonitor g monitor t = some t) : deleteRepeat g monitor k t = some t := by
  induction k with
  | zero => rfl
  | succ k ih => simp [deleteRepeat, h, ih]

/-- C18: on a desk with a non-empty layout list, `deleteInvalidMonitorOnAllLayouts`
yields exactly the result of a single call of `deleteInvalidMonitor(output)`
(the same state, or no state when that call dereferences a null monitor or an
active index out of range); in particular every non-active layout is
unchanged. -/
theorem deleteInvalidMonitorOnAllLayouts_eq_single (g : CCompositor) (output : wlr_output)
    (s : VirtualDesk) (hne : s.layouts ≠ []) :
    deleteInvalidMonitorOnAllLayouts g output s = deleteInvalidMonitor g output s ∧
    ∀ t, deleteInvalidMonitorOnAllLayouts g output s = some t →
      ∀ j, j ≠ s.m_activeLayout_idx → t.layouts[j]? = s.layouts[j]? := by
  have heq : deleteInvalidMonitorOnAllLayouts g output s = deleteInvalidMonitor g output s := by
    unfold deleteInvalidMonitorOnAllLayouts
    obtain ⟨n, hn⟩ : ∃ n, s.layouts.length = n + 1 := by
      cases hl : s.layouts with
      | nil => exact absurd hl hne
      | cons a rest => exact ⟨rest.length, by simp⟩
    rw [hn]
    simp only [deleteRepeat]
    cases hd : deleteInvalidMonitor g output s with
    | none => rfl
    | some t =>
      simp only [Option.some_bind]
      exact deleteRepeat_fixed g output n t (deleteInvalidMonitor_twice g output s t hd)
  refine ⟨heq, ?_⟩
  intro t ht j hj
  rw [heq] at ht
  unfold deleteInvalidMonitor at ht
  cases hget : s.layouts[s.m_activeLayout_idx]? with
  | none => simp [hget] at ht
  | some layout =>
    simp only [hget, Option.some_bind] at ht
    cases hloop : deleteOutputLoop g output layout layout with
    | none => simp [hloop] at ht
    | some result =>
      simp only [hloop, Option.map_some', Option.some.injEq] at ht
      subst ht
      exact getElem?_set_ne' _ _ _ _ hj

/-- C18 (witness): two layouts, output `B` removed, `A` and `C` enabled. -/
theorem deleteInvalidMonitorOnAllLayouts_eq_single_witness :
    deleteInvalidMonitorOnAllLayouts (compositorOf ["A", "C"] windowsABC) { description := some "B" }
        (desk1 [[("A", 1), ("B", 2)], [("A", 7), ("B", 8)]] 0 true)
      = deleteInvalidMonitor (compositorOf ["A", "C"] windowsABC) { description := some "B" }
        (desk1 [[("A", 1), ("B", 2)], [("A", 7), ("B", 8)]] 0 true) :=
  (deleteInvalidMonitorOnAllLayouts_eq_single (compositorOf ["A", "C"] windowsABC)
    { description := some "B" } (desk1 [[("A", 1), ("B", 2)], [("A", 7), ("B", 8)]] 0 true)
    (by decide)).1

/-! ## Operations with no enabled monitor -/

/-- C13 (the code at the failing input): the desk constructed while `A` was the
only enabled monitor holds the layout `{A:1}` and is reachable.  Once no monitor
is enabled, `firstAvailableMonitor` returns the null pointer, and both variants
of `deleteInvalidMonitor` and `deleteInvalidMonitorOnAllLayouts` dereference
it: none of them completes. -/
theorem deleteInvalidMonitor_null_replacement :
    Reachable (deskOf [("A", 1)]) ∧
    currentlyEnabledMonitors (compositorOf [] noWindows) = [] ∧
    firstAvailableMonitor (compositorOf [] noWindows)
        (currentlyEnabledMonitors (compositorOf [] noWindows)) = none ∧
    deleteInvalidMonitor (compositorOf [] noWindows) { description := some "A" }
        (deskOf [("A", 1)]) = none ∧
    deleteInvalidMonitorRegistry (compositorOf [] noWindows) (deskOf [("A", 1)]) = none ∧
    deleteInvalidMonitorOnAllLayouts (compositorOf [] noWindows) { description := some "A" }
        (deskOf [("A", 1)]) = none :=
  ⟨Reachable.construct (compositorOf ["A"] noWindows) 1 "1" true _ (by decide),
    by decide, by decide, by decide, by decide, by decide⟩

/-! ## Soundness of the `monitors` test -/

theorem strLess_eq_of_not_lt (a b : String) (hab : strLess a b = false)
    (hba : strLess b a = false) : a = b := by
  unfold strLess at hab hba
  simp only [decide_eq_false_iff_not] at hab hba
  rcases lt_trichotomy a.data b.data with h | h | h
  · exact absurd h hab
  · exact String.ext h
  · exact absurd h hba

theorem setIntersectionLoop_sublist (fuel : Nat) (r1 r2 : List String) :
    (setIntersectionLoop fuel r1 r2).Sublist r1 := by
  induction fuel generalizing r1 r2 with
  | zero => simp [setIntersectionLoop]
  | succ fuel ih =>
    cases r1 with
    | nil => simp [setIntersectionLoop]
    | cons a as =>
      cases r2 with
      | nil => simp [setIntersectionLoop]
      | cons b bs =>
        simp only [setIntersectionLoop]
        split
        · exact List.Sublist.cons a (ih as (b :: bs))
        · split
          · exact ih (a :: as) bs
          · exact List.Sublist.cons₂ a (ih as bs)

theorem setIntersectionLoop_subset (fuel : Nat) (r1 r2 : List String) :
    ∀ x ∈ setIntersectionLoop fuel r1 r2, x ∈ r2 := by
  induction fuel generalizing r1 r2 with
  | zero => simp [setIntersectionLoop]
  | succ fuel ih =>
    cases r1 with
    | nil => simp [setIntersectionLoop]
    | cons a as =>
      cases r2 with
      | nil => simp [setIntersectionLoop]
      | cons b bs =>
        intro x hx
        simp only [setIntersectionLoop] at hx
        by_cases hab : strLess a b = true
        · rw [if_pos hab] at hx
          exact ih as (b :: bs) x hx
        · rw [if_neg hab] at hx
          by_cases hba : strLess b a = true
          · rw [if_pos hba] at hx
            exact List.mem_cons_of_mem _ (ih (a :: as) bs x hx)
          · rw [if_neg hba] at hx
            have heq : a = b := strLess_eq_of_not_lt a b (by simpa using hab) (by simpa using hba)
            rcases List.mem_cons.mp hx with h | h
            · rw [h, heq]; exact List.mem_cons_self _ _
            · exact List.mem_cons_of_mem _ (ih as bs x h)

theorem foldl_usetInsert_length_le (xs acc : List String) :
    (xs.foldl usetInsert acc).length ≤ acc.length + xs.length := by
  induction xs generalizing acc with
  | nil => simp
  | cons y ys ih =>
    simp only [List.foldl_cons, List.length_cons]
    have hlen : (usetInsert acc y).length ≤ acc.length + 1 := by
      unfold usetInsert
      split <;> simp
    have := ih (usetInsert acc y)
    omega

theorem matchesMonitors_subset (ord : List String → List String) (currentSet : List String)
    (layout : Layout) (h : matchesMonitors ord currentSet layout = true) :
    ∀ k ∈ ord layout.keys, k ∈ currentSet := by
  unfold matchesMonitors at h
  simp only [decide_eq_true_eq] at h
  have hsub : (set_intersection (ord layout.keys) currentSet).Sublist (ord layout.keys) :=
    setIntersectionLoop_sublist _ _ _
  have hle1 := foldl_usetInsert_length_le (set_intersection (ord layout.keys) currentSet) []
  have hle2 := hsub.length_le
  have hlen : (set_intersection (ord layout.keys) currentSet).length = (ord layout.keys).length := by
    unfold insertAll at h
    simp only [List.length_nil, Nat.zero_add] at hle1
    omega
  have heq := hsub.eq_of_length hlen
  intro k hk
  rw [← heq] at hk
  exact setIntersectionLoop_subset _ _ _ k hk

theorem searchByMonitors_some (ord : List String → List String) (currentSet : List String)
    (layouts : List Layout) (start idx : Nat)
    (h : searchByMonitors ord currentSet layouts start = some idx) :
    ∃ layout, start ≤ idx ∧ layouts[idx - start]? = some layout ∧
      matchesMonitors ord currentSet layout = true := by
  induction layouts generalizing start with
  | nil => simp [searchByMonitors] at h
  | cons l rest ih =>
    simp only [searchByMonitors] at h
    by_cases hm : matchesMonitors ord currentSet l = true
    · rw [if_pos hm] at h
      simp only [Option.some.injEq] at h
      subst h
      exact ⟨l, le_refl _, by simp, hm⟩
    · rw [if_neg hm] at h
      obtain ⟨layout, hle, hget, hmatch⟩ := ih (start + 1) h
      refine ⟨layout, by omega, ?_, hmatch⟩
      have : idx - start = (idx - (start + 1)) + 1 := by omega
      rw [this, List.getElem?_cons_succ]
      exact hget

/-- C17: under the `monitors` policy, for every admissible iteration order of
the two descriptor sets, whenever `searchActiveLayout` returns without appending
a layout (it selected a stored one), the layout returned is the stored layout at
the new active index and every key of it is the description of a currently
enabled monitor. -/
theorem searchActiveLayout_monitors_selected_keys_enabled (g : CCompositor)
    (ord : List String → List String) (s : VirtualDesk) (r : VirtualDesk × Layout)
    (hord : IsSetOrder ord)
    (hres : searchActiveLayout g ord RememberLayoutConf.monitors s = some r)
    (hstored : r.1.layouts.length = s.layouts.length) :
    s.layouts[r.1.m_activeLayout_idx]? = some r.2 ∧
    ∀ k ∈ r.2.keys, k ∈ enabledDescs g := by
  unfold searchActiveLayout at hres
  simp only at hres
  cases hsearch : searchByMonitors ord (setFromMonitors ord (currentlyEnabledMonitors g))
      s.layouts 0 with
  | none =>
    simp only [hsearch] at hres
    obtain ⟨-, hstate⟩ := appendGenerated_eq g s s.layouts r hres
    rw [hstate] at hstored
    simp at hstored
  | some idx =>
    simp only [hsearch] at hres
    obtain ⟨layout, -, hget, hmatch⟩ := searchByMonitors_some ord _ s.layouts 0 idx hsearch
    simp only [Nat.sub_zero] at hget
    simp only [hget, Option.map_some', Option.some.injEq] at hres
    subst hres
    refine ⟨hget, ?_⟩
    intro k hk
    have h1 : k ∈ ord layout.keys := ((hord layout.keys).2 k).mpr hk
    have h2 := matchesMonitors_subset ord _ layout hmatch k h1
    exact ((hord _).2 k).mp h2

/-- C17 (witness): stored `{A:1, B:2}` with `A`, `B`, `C` enabled and both sets
iterating in insertion order; the stored layout is selected. -/
theorem searchActiveLayout_monitors_selected_keys_enabled_witness :
    searchActiveLayout (compositorOf ["A", "B", "C"] noWindows) insertionOrder
        RememberLayoutConf.monitors (desk1 [[("A", 1), ("B", 2)]] 0 false)
      = some (desk1 [[("A", 1), ("B", 2)]] 0 false, [("A", 1), ("B", 2)]) ∧
    ((desk1 [[("A", 1), ("B", 2)]] 0 false).layouts[
        (desk1 [[("A", 1), ("B", 2)]] 0 false).m_activeLayout_idx]? = some [("A", 1), ("B", 2)] ∧
      ∀ k ∈ Layout.keys [("A", 1), ("B", 2)],
        k ∈ enabledDescs (compositorOf ["A", "B", "C"] noWindows)) :=
  ⟨by decide,
   searchActiveLayout_monitors_selected_keys_enabled (compositorOf ["A", "B", "C"] noWindows)
    insertionOrder (desk1 [[("A", 1), ("B", 2)]] 0 false)
    (desk1 [[("A", 1), ("B", 2)]] 0 false, [("A", 1), ("B", 2)])
    insertionOrder_isSetOrder (by decide) (by decide)⟩

/-- C19: under the `monitors` policy, for every admissible iteration order and
every registry state, when the first stored layout has no entries
`searchActiveLayout` selects it: the active index becomes 0, the empty layout is
returned and the layout list is left as it was (no layout is generated). -/
theorem searchActiveLayout_monitors_empty_first (g : CCompositor)
    (ord : List String → List String) (s : VirtualDesk) (rest : List Layout)
    (hord : IsSetOrder ord) (hfirst : s.layouts = [] :: rest) :
    searchActiveLayout g ord RememberLayoutConf.monitors s
      = some ({ s with m_activeLayout_idx := 0 }, []) := by
  have hempty : ord [] = [] := by
    apply List.eq_nil_iff_forall_not_mem.mpr
    intro x hx
    have := ((hord []).2 x).mp hx
    simp at this
  have hmatch : ∀ cs, matchesMonitors ord cs [] = true := by
    intro cs
    unfold matchesMonitors
    simp only [Layout.keys, List.map_nil, hempty, decide_eq_true_eq]
    cases cs <;> simp [set_intersection, setIntersectionLoop, insertAll]
  unfold searchActiveLayout
  simp only [hfirst, searchByMonitors, hmatch, if_true]
  simp

/-- C19 (witness): the desk constructed while no monitor was enabled holds one
empty layout; with `A` and `B` enabled later, the empty layout is selected. -/
theorem searchActiveLayout_monitors_empty_first_witness :
    mk' (compositorOf [] noWindows) 1 "1" true = some (desk1 [[]] 0 true) ∧
    searchActiveLayout (compositorOf ["A", "B"] noWindows) reverseOrder
        RememberLayoutConf.monitors (desk1 [[]] 0 true)
      = some ({ desk1 [[]] 0 true with m_activeLayout_idx := 0 }, []) :=
  ⟨by decide,
   searchActiveLayout_monitors_empty_first (compositorOf ["A", "B"] noWindows) reverseOrder
    (desk1 [[]] 0 true) [] reverseOrder_isSetOrder rfl⟩

/-! ## One substitution per call of `checkAndAdaptLayout` -/

theorem checkAndAdaptLoop_first (g : CCompositor) (copy layout : Layout) (mon : CMonitor)
    (hstale : ∃ k ∈ copy.keys, notEnabled g k = true)
    (hmon : (currentlyEnabledMonitors g).find?
        (fun m => !layout.contains (monitorDesc m.output)) = some mon) :
    ∃ (st : String) (w : Int), st ∈ copy.keys ∧ notEnabled g st = true ∧
      copy.find st = some w ∧
      checkAndAdaptLoop g copy layout = (layout.set (monitorDesc mon.output) w).erase st := by
  induction copy with
  | nil => simp [Layout.keys] at hstale
  | cons e rest ih =>
    obtain ⟨k, v⟩ := e
    cases hk : notEnabled g k with
    | true =>
      refine ⟨k, v, by simp [Layout.keys], hk, by simp [Layout.find], ?_⟩
      simp [checkAndAdaptLoop, hk, hmon]
    | false =>
      have hstale' : ∃ k' ∈ Layout.keys rest, notEnabled g k' = true := by
        obtain ⟨k', hk', hs⟩ := hstale
        simp only [Layout.keys, List.map_cons, List.mem_cons] at hk'
        rcases hk' with h | h
        · rw [h, hk] at hs
          exact Bool.noConfusion hs
        · exact ⟨k', h, hs⟩
      obtain ⟨st, w, hmem, hst, hfind, hloop⟩ := ih hstale'
      have hne : k ≠ st := by
        intro heq
        rw [heq, hst] at hk
        exact Bool.noConfusion hk
      refine ⟨st, w, ?_, hst, by simp [Layout.find, hne, hfind], ?_⟩
      · simp only [Layout.keys, List.map_cons, List.mem_cons]
        exact Or.inr hmem
      · simp only [checkAndAdaptLoop, hk, Bool.false_eq_true, if_false]
        exact hloop

/-- C16: when the layout has at least one key that does not resolve to an
enabled monitor and `mon` is the first enabled monitor whose description is not
a key of the layout, `checkAndAdaptLayout` re-keys exactly one stale entry `st`
to the description of `mon`, keeping its workspace id `w`; every other key,
stale or not, has the same entry as before. -/
theorem checkAndAdaptLayout_single_substitution (g : CCompositor) (layout : Layout)
    (pre post : List CMonitor) (mon : CMonitor)
    (hstale : ∃ k ∈ layout.keys, notEnabled g k = true)
    (hsplit : currentlyEnabledMonitors g = pre ++ mon :: post)
    (hpre : ∀ m ∈ pre, layout.contains (monitorDesc m.output) = true)
    (hmon : layout.contains (monitorDesc mon.output) = false) :
    ∃ (st : String) (w : Int), st ∈ layout.keys ∧ notEnabled g st = true ∧
      layout.find st = some w ∧
      (checkAndAdaptLayout g layout).find st = none ∧
      (checkAndAdaptLayout g layout).find (monitorDesc mon.output) = some w ∧
      ∀ k, k ≠ st → k ≠ monitorDesc mon.output →
        (checkAndAdaptLayout g layout).find k = layout.find k := by
  have hunused : (currentlyEnabledMonitors g).find?
      (fun m => !layout.contains (monitorDesc m.output)) = some mon := by
    rw [hsplit]
    exact find?_first_unused _ pre post mon (fun m hm => by simp [hpre m hm]) (by simp [hmon])
  obtain ⟨st, w, hmem, hst, hfind, hloop⟩ := checkAndAdaptLoop_first g layout layout mon hstale hunused
  have hne : monitorDesc mon.output ≠ st := by
    intro heq
    rw [heq] at hmon
    simp [Layout.contains, hfind] at hmon
  unfold checkAndAdaptLayout
  refine ⟨st, w, hmem, hst, hfind, ?_, ?_, ?_⟩
  · rw [hloop, Layout.find_erase]; simp
  · rw [hloop, Layout.find_erase, Layout.find_set]; simp [Ne.symm hne]
  · intro k hk1 hk2
    rw [hloop, Layout.find_erase, Layout.find_set]
    simp [Ne.symm hk1, Ne.symm hk2]

/-- C16 (witness): `{A:1, B:2, E:3}` with `C`, `D`, `E` enabled: only the entry of
`A` is re-keyed (to `C`); the stale entry of `B` stays. -/
theorem checkAndAdaptLayout_single_substitution_witness :
    checkAndAdaptLayout (compositorOf ["E", "C", "D"] noWindows) [("A", 1), ("B", 2), ("E", 3)]
      = [("B", 2), ("E", 3), ("C", 1)] ∧
    ∃ (st : String) (w : Int), st ∈ Layout.keys [("A", 1), ("B", 2), ("E", 3)] ∧
      notEnabled (compositorOf ["E", "C", "D"] noWindows) st = true ∧
      Layout.find [("A", 1), ("B", 2), ("E", 3)] st = some w ∧
      (checkAndAdaptLayout (compositorOf ["E", "C", "D"] noWindows)
        [("A", 1), ("B", 2), ("E", 3)]).find st = none ∧
      (checkAndAdaptLayout (compositorOf ["E", "C", "D"] noWindows)
        [("A", 1), ("B", 2), ("E", 3)]).find (monitorDesc (enabledMonitor "C" 2).output) = some w ∧
      ∀ k, k ≠ st → k ≠ monitorDesc (enabledMonitor "C" 2).output →
        (checkAndAdaptLayout (compositorOf ["E", "C", "D"] noWindows)
          [("A", 1), ("B", 2), ("E", 3)]).find k = Layout.find [("A", 1), ("B", 2), ("E", 3)] k :=
  ⟨by decide,
   checkAndAdaptLayout_single_substitution (compositorOf ["E", "C", "D"] noWindows)
    [("A", 1), ("B", 2), ("E", 3)] [enabledMonitor "E" 1] [enabledMonitor "D" 3]
    (enabledMonitor "C" 2) (by decide) (by decide) (by decide) (by decide)⟩

/-! ## Keys and workspace ids under `set` and `erase` -/

namespace Layout

theorem keys_set_of_mem (l : Layout) (k : String) (v : Int) (h : k ∈ l.keys) :
    (l.set k v).keys = l.keys := by
  induction l with
  | nil => simp [keys] at h
  | cons e rest ih =>
    obtain ⟨k0, w⟩ := e
    by_cases h0 : k0 = k
    · simp [set, keys, h0]
    · have h1 : k ∈ keys rest := by
        simp only [keys, List.map_cons, List.mem_cons] at h
        rcases h with h | h
        · exact absurd h.symm h0
        · exact h
      have := ih h1
      simp only [keys] at this
      simp [set, keys, h0, this]

theorem nodup_keys_set (l : Layout) (k : String) (v : Int) (h : l.keys.Nodup) :
    (l.set k v).keys.Nodup := by
  by_cases hk : k ∈ l.keys
  · rw [keys_set_of_mem l k v hk]; exact h
  · rw [keys_set_of_not_mem l k v hk, List.nodup_append]
    refine ⟨h, by simp, ?_⟩
    intro a ha hb
    simp only [List.mem_singleton] at hb
    subst hb
    exact hk ha

theorem keys_erase (l : Layout) (k : String) :
    (l.erase k).keys = l.keys.filter (fun key => decide (key ≠ k)) := by
  induction l with
  | nil => simp [erase, keys]
  | cons e rest ih =>
    obtain ⟨k0, w⟩ := e
    simp only [keys] at ih
    by_cases h0 : k0 = k
    · simp [erase, keys, h0, ih]
    · simp [erase, keys, h0, ih]

theorem nodup_keys_erase (l : Layout) (k : String) (h : l.keys.Nodup) :
    (l.erase k).keys.Nodup := by
  rw [keys_erase]
  exact h.filter _

theorem find_of_mem (l : Layout) (k : String) (v : Int) (hnd : l.keys.Nodup)
    (h : (k, v) ∈ l) : l.find k = some v := by
  induction l with
  | nil => simp at h
  | cons e rest ih =>
    obtain ⟨k0, w⟩ := e
    simp only [keys, List.map_cons, List.nodup_cons] at hnd
    rcases List.mem_cons.mp h with heq | hmem
    · simp only [Prod.mk.injEq] at heq
      simp [find, heq.1, heq.2]
    · have hne : k0 ≠ k := by
        intro heq
        apply hnd.1
        rw [heq]
        exact List.mem_map_of_mem Prod.fst hmem
      simp only [find, hne, if_false]
      exact ih hnd.2 hmem

theorem mem_of_find (l : Layout) (k : String) (v : Int) (h : l.find k = some v) : (k, v) ∈ l := by
  induction l with
  | nil => simp [find] at h
  | cons e rest ih =>
    obtain ⟨k0, w⟩ := e
    by_cases h0 : k0 = k
    · simp only [find, h0, if_true, Option.some.injEq] at h
      simp [h0, h]
    · simp only [find, h0, if_false] at h
      exact List.mem_cons_of_mem _ (ih h)

theorem values_set (l : Layout) (k : String) (w v : Int) (h : v ∈ (l.set k w).values) :
    v = w ∨ v ∈ l.values := by
  induction l with
  | nil =>
    simp only [set, values, List.map_cons, List.map_nil, List.mem_singleton] at h
    exact Or.inl h
  | cons e rest ih =>
    obtain ⟨k0, w0⟩ := e
    by_cases h0 : k0 = k
    · simp only [set, h0, if_true, values, List.map_cons, List.mem_cons] at h
      rcases h with h | h
      · exact Or.inl h
      · exact Or.inr (by simp only [values, List.map_cons, List.mem_cons]; exact Or.inr h)
    · simp only [set, h0, if_false, values, List.map_cons, List.mem_cons] at h
      rcases h with h | h
      · exact Or.inr (by simp only [values, List.map_cons, List.mem_cons]; exact Or.inl h)
      · rcases ih h with h' | h'
        · exact Or.inl h'
        · exact Or.inr (by simp only [values, List.map_cons, List.mem_cons]; exact Or.inr h')

theorem values_erase (l : Layout) (k : String) (v : Int) (h : v ∈ (l.erase k).values) :
    v ∈ l.values := by
  induction l with
  | nil => simp [erase, values] at h
  | cons e rest ih =>
    obtain ⟨k0, w0⟩ := e
    by_cases h0 : k0 = k
    · simp only [erase, h0, if_true] at h
      simp only [values, List.map_cons, List.mem_cons]
      exact Or.inr (ih h)
    · simp only [erase, h0, if_false, values, List.map_cons, List.mem_cons] at h
      simp only [values, List.map_cons, List.mem_cons]
      rcases h with h | h
      · exact Or.inl h
      · exact Or.inr (ih h)

end Layout

/-! ## The registry-driven `deleteInvalidMonitor()` -/

theorem deleteStaleLoop_spec (g : CCompositor) (em : List CMonitor) (ed : List String)
    (mon : CMonitor) (hchosen : firstAvailableMonitor g em = some mon)
    (hr : monitorDesc mon.output ∈ ed) (rest layout : Layout) :
    ∃ result, deleteStaleLoop g em ed rest layout = some result ∧
      (∀ key, key ≠ monitorDesc mon.output →
        result.find key = if key ∈ ed then layout.find key
          else if key ∈ rest.keys then none else layout.find key) ∧
      ((∀ e ∈ rest, e.1 ∈ ed) → result = layout) ∧
      ((∃ e ∈ rest, e.1 ∉ ed) →
        ∃ e ∈ rest, e.1 ∉ ed ∧ result.find (monitorDesc mon.output) = some e.2) ∧
      (layout.keys.Nodup → result.keys.Nodup) ∧
      (∀ v ∈ result.values, v ∈ layout.values ∨ v ∈ rest.values) := by
  induction rest generalizing layout with
  | nil =>
    refine ⟨layout, rfl, ?_, fun _ => rfl, ?_, fun h => h, fun v hv => Or.inl hv⟩
    · intro key _
      simp [Layout.keys]
    · rintro ⟨e, he, -⟩
      simp at he
  | cons e rest ih =>
    obtain ⟨d, wid⟩ := e
    have hmemk : ∀ key, key ∈ Layout.keys ((d, wid) :: rest) ↔ key = d ∨ key ∈ Layout.keys rest := by
      intro key; simp [Layout.keys]
    by_cases hd : d ∈ ed
    · obtain ⟨result, hres, hfind, hsame, hlast, hnd, hval⟩ := ih layout
      refine ⟨result, ?_, ?_, ?_, ?_, hnd, ?_⟩
      · simp [deleteStaleLoop, hd, hres]
      · intro key hkey
        rw [hfind key hkey]
        by_cases hk : key ∈ ed
        · simp [hk]
        · have hne : key ≠ d := fun h => hk (h ▸ hd)
          simp [hk, hmemk, hne]
      · intro hall
        exact hsame (fun e he => hall e (List.mem_cons_of_mem _ he))
      · rintro ⟨e, he, hne⟩
        rcases List.mem_cons.mp he with heq | hmem
        · rw [heq] at hne
          exact absurd hd hne
        · obtain ⟨e', he', hne', hf⟩ := hlast ⟨e, hmem, hne⟩
          exact ⟨e', List.mem_cons_of_mem _ he', hne', hf⟩
      · intro v hv
        rcases hval v hv with h | h
        · exact Or.inl h
        · exact Or.inr (by simp only [Layout.values, List.map_cons, List.mem_cons]; exact Or.inr h)
    · have hdr : d ≠ monitorDesc mon.output := fun h => hd (h ▸ hr)
      obtain ⟨result, hres, hfind, hsame, hlast, hnd, hval⟩ :=
        ih ((layout.set (monitorDesc mon.output) wid).erase d)
      refine ⟨result, ?_, ?_, ?_, ?_, ?_, ?_⟩
      · simp [deleteStaleLoop, hd, hchosen, hres]
      · intro key hkey
        rw [hfind key hkey, Layout.find_erase, Layout.find_set]
        have hkey' : ¬ monitorDesc mon.output = key := fun h => hkey h.symm
        by_cases hk : key ∈ ed
        · have hne : ¬ d = key := fun h => hd (h ▸ hk)
          simp [hk, hne, hkey']
        · by_cases hkr : key ∈ Layout.keys rest
          · simp [hk, hkr, hmemk]
          · by_cases hkd : d = key
            · subst hkd
              simp [hk, hkr, hmemk]
            · have hkd' : ¬ key = d := fun h => hkd h.symm
              simp [hk, hkr, hkd, hkd', hkey', hmemk]
      · intro hall
        exact absurd (hall (d, wid) (List.mem_cons_self _ _)) hd
      · intro _
        by_cases hex : ∃ e ∈ rest, e.1 ∉ ed
        · obtain ⟨e', he', hne', hf⟩ := hlast hex
          exact ⟨e', List.mem_cons_of_mem _ he', hne', hf⟩
        · have hall : ∀ e ∈ rest, e.1 ∈ ed := by
            intro e he
            by_contra hcon
            exact hex ⟨e, he, hcon⟩
          refine ⟨(d, wid), List.mem_cons_self _ _, hd, ?_⟩
          rw [hsame hall, Layout.find_erase, Layout.find_set]
          simp [hdr]
      · intro h
        exact hnd (Layout.nodup_keys_erase _ _ (Layout.nodup_keys_set _ _ _ h))
      · intro v hv
        rcases hval v hv with h | h
        · rcases Layout.values_set _ _ _ _ (Layout.values_erase _ _ _ h) with h' | h'
          · exact Or.inr (by simp [Layout.values, h'])
          · exact Or.inl h'
        · exact Or.inr (by simp only [Layout.values, List.map_cons, List.mem_cons]; exact Or.inr h)

/-- C12: let `mon` be the monitor chosen by `firstAvailableMonitor` (so some
monitor is enabled).  The registry-driven `deleteInvalidMonitor()` completes;
afterwards every key of the active layout is the description of a currently
enabled monitor, every key that was an enabled description other than the
description of `mon` keeps its workspace id, and the other layouts are
unchanged. -/
theorem deleteInvalidMonitorRegistry_keys_enabled (g : CCompositor) (s : VirtualDesk)
    (layout : Layout) (mon : CMonitor)
    (hget : s.layouts[s.m_activeLayout_idx]? = some layout)
    (hchosen : firstAvailableMonitor g (currentlyEnabledMonitors g) = some mon) :
    ∃ (t : VirtualDesk) (edited : Layout),
      deleteInvalidMonitorRegistry g s = some t ∧
      t.m_activeLayout_idx = s.m_activeLayout_idx ∧
      t.layouts[t.m_activeLayout_idx]? = some edited ∧
      (∀ key ∈ edited.keys, key ∈ enabledDescs g) ∧
      (∀ key, key ∈ enabledDescs g → key ≠ monitorDesc mon.output →
        edited.find key = layout.find key) ∧
      (∀ j, j ≠ s.m_activeLayout_idx → t.layouts[j]? = s.layouts[j]?) := by
  have hr : monitorDesc mon.output ∈ enabledDescs g :=
    List.mem_map_of_mem _ (firstAvailableMonitor_mem g _ mon hchosen)
  obtain ⟨result, hres, hfind, -, -, -, -⟩ :=
    deleteStaleLoop_spec g (currentlyEnabledMonitors g) (enabledDescs g) mon hchosen hr layout layout
  refine ⟨{ s with layouts := s.layouts.set s.m_activeLayout_idx result }, result,
          ?_, rfl, ?_, ?_, ?_, ?_⟩
  · unfold deleteInvalidMonitorRegistry
    simp only [hget, Option.some_bind]
    unfold enabledDescs at hres
    simp [hres]
  · exact getElem?_set_self' _ _ _ _ hget
  · intro key hkey
    by_cases hkr : key = monitorDesc mon.output
    · rw [hkr]; exact hr
    · by_contra hk
      have hnone : result.find key = none := by
        rw [hfind key hkr]
        by_cases hkl : key ∈ layout.keys
        · simp [hk, hkl]
        · simp [hk, hkl, (Layout.find_eq_none_iff layout key).mpr hkl]
      exact ((Layout.find_eq_none_iff result key).mp hnone) hkey
  · intro key hk hkr
    rw [hfind key hkr]
    simp [hk]
  · intro j hj
    exact getElem?_set_ne' _ _ _ _ hj

/-- C12 (witness): active layout `{A:1, X:2, Y:3}` with `A`, `B` enabled and `B`
the least loaded monitor: the result is `{A:1, B:3}`. -/
theorem deleteInvalidMonitorRegistry_keys_enabled_witness :
    deleteInvalidMonitorRegistry (compositorOf ["A", "B"] windowsABC)
        (deskOf [("A", 1), ("X", 2), ("Y", 3)]) = some (deskOf [("A", 1), ("B", 3)]) ∧
    ∃ (t : VirtualDesk) (edited : Layout),
      deleteInvalidMonitorRegistry (compositorOf ["A", "B"] windowsABC)
        (deskOf [("A", 1), ("X", 2), ("Y", 3)]) = some t ∧
      t.m_activeLayout_idx = (deskOf [("A", 1), ("X", 2), ("Y", 3)]).m_activeLayout_idx ∧
      t.layouts[t.m_activeLayout_idx]? = some edited ∧
      (∀ key ∈ edited.keys, key ∈ enabledDescs (compositorOf ["A", "B"] windowsABC)) ∧
      (∀ key, key ∈ enabledDescs (compositorOf ["A", "B"] windowsABC) →
        key ≠ monitorDesc (enabledMonitor "B" 2).output →
        edited.find key = Layout.find [("A", 1), ("X", 2), ("Y", 3)] key) ∧
      (∀ j, j ≠ (deskOf [("A", 1), ("X", 2), ("Y", 3)]).m_activeLayout_idx →
        t.layouts[j]? = (deskOf [("A", 1), ("X", 2), ("Y", 3)]).layouts[j]?) :=
  ⟨by decide,
   deleteInvalidMonitorRegistry_keys_enabled (compositorOf ["A", "B"] windowsABC)
    (deskOf [("A", 1), ("X", 2), ("Y", 3)]) [("A", 1), ("X", 2), ("Y", 3)] (enabledMonitor "B" 2)
    (by decide) (by decide)⟩

/-- C20 (counterexample): the reachable desk with active layout
`{A:1, B:2, X:2, Y:4}` (built on monitors `A`, `B`, `X`, `Y`, then workspace 2 put
on `X`), with only `A` and `B` enabled afterwards and `A` the replacement.  The two
stale entries `X:2` and `Y:4` are both moved onto `A`, which ends with the id 4;
the other stale id 2 still occurs in the layout, on `B`. -/
theorem deleteInvalidMonitorRegistry_stale_id_survives_counterexample :
    Reachable (deskOf [("A", 1), ("B", 2), ("X", 2), ("Y", 4)]) ∧
    ((Layout.keys [("A", 1), ("B", 2), ("X", 2), ("Y", 4)]).filter
      (fun key => decide (key ∉ enabledDescs (compositorOf ["A", "B"] noWindows)))).length = 2 ∧
    firstAvailableMonitor (compositorOf ["A", "B"] noWindows)
        (currentlyEnabledMonitors (compositorOf ["A", "B"] noWindows))
      = some (enabledMonitor "A" 1) ∧
    deleteInvalidMonitorRegistry (compositorOf ["A", "B"] noWindows)
        (deskOf [("A", 1), ("B", 2), ("X", 2), ("Y", 4)])
      = some (deskOf [("A", 4), ("B", 2)]) ∧
    Layout.find [("A", 1), ("B", 2), ("X", 2), ("Y", 4)] "X" = some 2 ∧
    Layout.find [("A", 1), ("B", 2), ("X", 2), ("Y", 4)] "Y" = some 4 ∧
    Layout.find [("A", 4), ("B", 2)] "A" = some 4 ∧
    (2 : Int) ∈ Layout.values [("A", 4), ("B", 2)] :=
  ⟨Reachable.changeWorkspace 2 (enabledMonitor "X" 3)
      (deskOf [("A", 1), ("B", 2), ("X", 3), ("Y", 4)]) _
      (Reachable.construct (compositorOf ["A", "B", "X", "Y"] noWindows) 1 "1" true _ (by decide))
      (by decide),
    by decide, by decide, by decide, by decide, by decide, by decide, by decide⟩

theorem stale_keys_removed (ed : List String) (r : String) (layout result : Layout)
    (hr : r ∈ ed)
    (hfind : ∀ key, key ≠ r → result.find key = if key ∈ ed then layout.find key
        else if key ∈ layout.keys then none else layout.find key) :
    ∀ key ∈ result.keys, key ∈ ed := by
  intro key hkey
  by_cases hkr : key = r
  · rw [hkr]; exact hr
  · by_contra hk
    have hnone : result.find key = none := by
      rw [hfind key hkr]
      by_cases hkl : key ∈ layout.keys
      · simp [hk, hkl]
      · simp [hk, hkl, (Layout.find_eq_none_iff layout key).mpr hkl]
    exact ((Layout.find_eq_none_iff result key).mp hnone) hkey

/-- C20 (amended): let the active layout hold pairwise distinct workspace ids and
`k ≥ 2` keys that are not enabled descriptions, and let `mon` be the monitor
chosen by `firstAvailableMonitor` (description `r`).  After the registry-driven
`deleteInvalidMonitor()` the layout has `k` fewer stale keys (none), its keys are
still distinct (a single entry for `r`), `r` holds the workspace id `w` of one of
the stale entries `st`, and neither the id of any other stale entry nor the id
`r` mapped to before occurs in the layout any more. -/
theorem deleteInvalidMonitorRegistry_relocates_onto_one (g : CCompositor) (s : VirtualDesk)
    (layout : Layout) (mon : CMonitor) (k : Nat)
    (hget : s.layouts[s.m_activeLayout_idx]? = some layout)
    (hnd : layout.keys.Nodup)
    (hinj : ∀ (k1 k2 : String) (v : Int), layout.find k1 = some v → layout.find k2 = some v →
      k1 = k2)
    (hk : (layout.keys.filter (fun key => decide (key ∉ enabledDescs g))).length = k)
    (h2 : 2 ≤ k)
    (hchosen : firstAvailableMonitor g (currentlyEnabledMonitors g) = some mon) :
    ∃ (t : VirtualDesk) (edited : Layout),
      deleteInvalidMonitorRegistry g s = some t ∧
      t.layouts[s.m_activeLayout_idx]? = some edited ∧
      (edited.keys.filter (fun key => decide (key ∉ enabledDescs g))).length + k
        = (layout.keys.filter (fun key => decide (key ∉ enabledDescs g))).length ∧
      edited.keys.Nodup ∧
      ∃ (st : String) (w : Int), st ∈ layout.keys ∧ st ∉ enabledDescs g ∧
        layout.find st = some w ∧
        edited.find (monitorDesc mon.output) = some w ∧
        (∀ (st' : String) (w' : Int), st' ≠ st → st' ∉ enabledDescs g →
          layout.find st' = some w' → ∀ key, edited.find key ≠ some w') ∧
        (∀ x, layout.find (monitorDesc mon.output) = some x →
          ∀ key, edited.find key ≠ some x) := by
  have hr : monitorDesc mon.output ∈ enabledDescs g :=
    List.mem_map_of_mem _ (firstAvailableMonitor_mem g _ mon hchosen)
  obtain ⟨result, hres, hfind, -, hlast, hndres, -⟩ :=
    deleteStaleLoop_spec g (currentlyEnabledMonitors g) (enabledDescs g) mon hchosen hr layout layout
  have hkeys := stale_keys_removed (enabledDescs g) _ layout result hr hfind
  have hstale : ∃ e ∈ layout, e.1 ∉ enabledDescs g := by
    have hpos : 0 < (layout.keys.filter (fun key => decide (key ∉ enabledDescs g))).length := by
      omega
    obtain ⟨key, hkey⟩ := List.exists_mem_of_length_pos hpos
    simp only [List.mem_filter, decide_eq_true_eq] at hkey
    obtain ⟨hmem, hne⟩ := hkey
    simp only [Layout.keys, List.mem_map] at hmem
    obtain ⟨e, he, heq⟩ := hmem
    exact ⟨e, he, by rw [heq]; exact hne⟩
  obtain ⟨⟨st, w⟩, he, hst, hfr⟩ := hlast hstale
  simp only at hst hfr
  have hfst : layout.find st = some w := Layout.find_of_mem layout st w hnd he
  have hstr : st ≠ monitorDesc mon.output := fun h => hst (h ▸ hr)
  refine ⟨{ s with layouts := s.layouts.set s.m_activeLayout_idx result }, result,
          ?_, ?_, ?_, hndres hnd, st, w, ?_, hst, hfst, hfr, ?_, ?_⟩
  · unfold deleteInvalidMonitorRegistry
    simp only [hget, Option.some_bind]
    unfold enabledDescs at hres
    simp [hres]
  · exact getElem?_set_self' _ _ _ _ hget
  · have hnil : result.keys.filter (fun key => decide (key ∉ enabledDescs g)) = [] := by
      rw [List.filter_eq_nil_iff]
      intro key hkey
      simp [hkeys key hkey]
    rw [hnil, hk]
    simp
  · exact List.mem_map_of_mem Prod.fst he
  · intro st' w' hne hst' hf' key hcon
    by_cases hkr : key = monitorDesc mon.output
    · rw [hkr, hfr] at hcon
      simp only [Option.some.injEq] at hcon
      rw [← hcon] at hf'
      exact hne (hinj st' st w hf' hfst)
    · rw [hfind key hkr] at hcon
      by_cases hke : key ∈ enabledDescs g
      · simp only [hke, if_true] at hcon
        have := hinj key st' w' hcon hf'
        rw [this] at hke
        exact hst' hke
      · by_cases hkl : key ∈ layout.keys
        · simp [hke, hkl] at hcon
        · simp [hke, hkl, (Layout.find_eq_none_iff layout key).mpr hkl] at hcon
  · intro x hx key hcon
    by_cases hkr : key = monitorDesc mon.output
    · rw [hkr, hfr] at hcon
      simp only [Option.some.injEq] at hcon
      rw [← hcon] at hx
      exact hstr (hinj st _ w hfst hx)
    · rw [hfind key hkr] at hcon
      by_cases hke : key ∈ enabledDescs g
      · simp only [hke, if_true] at hcon
        exact hkr (hinj key _ x hcon hx)
      · by_cases hkl : key ∈ layout.keys
        · simp [hke, hkl] at hcon
        · simp [hke, hkl, (Layout.find_eq_none_iff layout key).mpr hkl] at hcon

/-- C20 (witness): `{A:1, B:2, X:3, Y:4}` with `A`, `B` enabled: the result is
`{A:4, B:2}`; the ids 3 (of `X`) and 1 (formerly on `A`) are gone. -/
theorem deleteInvalidMonitorRegistry_relocates_onto_one_witness :
    deleteInvalidMonitorRegistry (compositorOf ["A", "B"] noWindows)
        (deskOf [("A", 1), ("B", 2), ("X", 3), ("Y", 4)]) = some (deskOf [("A", 4), ("B", 2)]) ∧
    ∃ (t : VirtualDesk) (edited : Layout),
      deleteInvalidMonitorRegistry (compositorOf ["A", "B"] noWindows)
        (deskOf [("A", 1), ("B", 2), ("X", 3), ("Y", 4)]) = some t ∧
      t.layouts[(deskOf [("A", 1), ("B", 2), ("X", 3), ("Y", 4)]).m_activeLayout_idx]?
        = some edited ∧
      (edited.keys.filter
          (fun key => decide (key ∉ enabledDescs (compositorOf ["A", "B"] noWindows)))).length + 2
        = ((Layout.keys [("A", 1), ("B", 2), ("X", 3), ("Y", 4)]).filter
          (fun key => decide (key ∉ enabledDescs (compositorOf ["A", "B"] noWindows)))).length ∧
      edited.keys.Nodup ∧
      ∃ (st : String) (w : Int), st ∈ Layout.keys [("A", 1), ("B", 2), ("X", 3), ("Y", 4)] ∧
        st ∉ enabledDescs (compositorOf ["A", "B"] noWindows) ∧
        Layout.find [("A", 1), ("B", 2), ("X", 3), ("Y", 4)] st = some w ∧
        edited.find (monitorDesc (enabledMonitor "A" 1).output) = some w ∧
        (∀ (st' : String) (w' : Int), st' ≠ st →
          st' ∉ enabledDescs (compositorOf ["A", "B"] noWindows) →
          Layout.find [("A", 1), ("B", 2), ("X", 3), ("Y", 4)] st' = some w' →
          ∀ key, edited.find key ≠ some w') ∧
        (∀ x, Layout.find [("A", 1), ("B", 2), ("X", 3), ("Y", 4)]
            (monitorDesc (enabledMonitor "A" 1).output) = some x →
          ∀ key, edited.find key ≠ some x) :=
  ⟨by decide,
   deleteInvalidMonitorRegistry_relocates_onto_one (compositorOf ["A", "B"] noWindows)
    (deskOf [("A", 1), ("B", 2), ("X", 3), ("Y", 4)]) [("A", 1), ("B", 2), ("X", 3), ("Y", 4)]
    (enabledMonitor "A" 1) 2 (by decide) (by decide)
    (by
      intro k1 k2 v h1 h2
      have m1 := Layout.mem_of_find _ _ _ h1
      have m2 := Layout.mem_of_find _ _ _ h2
      simp only [List.mem_cons, Prod.mk.injEq, List.mem_singleton, List.not_mem_nil,
        or_false] at m1 m2
      rcases m1 with ⟨rfl, rfl⟩ | ⟨rfl, rfl⟩ | ⟨rfl, rfl⟩ | ⟨rfl, rfl⟩ <;>
        rcases m2 with ⟨rfl, h⟩ | ⟨rfl, h⟩ | ⟨rfl, h⟩ | ⟨rfl, h⟩ <;>
        first | rfl | (exact absurd h (by decide)))
    (by decide) (by decide) (by decide)⟩

/-! ## Workspace ids under repair -/

theorem checkAndAdaptLoop_values (g : CCompositor) (rest layout : Layout) :
    ∀ v ∈ (checkAndAdaptLoop g rest layout).values, v ∈ layout.values ∨ v ∈ rest.values := by
  induction rest generalizing layout with
  | nil => intro v hv; exact Or.inl hv
  | cons e rest ih =>
    obtain ⟨d, wid⟩ := e
    intro v hv
    have htail : ∀ x, x ∈ Layout.values rest → x ∈ Layout.values ((d, wid) :: rest) := by
      intro x hx
      simp only [Layout.values, List.map_cons, List.mem_cons]
      exact Or.inr hx
    have hhead : wid ∈ Layout.values ((d, wid) :: rest) := by simp [Layout.values]
    simp only [checkAndAdaptLoop] at hv
    by_cases hd : notEnabled g d = true
    · rw [if_pos hd] at hv
      cases hf : (currentlyEnabledMonitors g).find?
          (fun mon => !layout.contains (monitorDesc mon.output)) with
      | some mon =>
        simp only [hf] at hv
        rcases Layout.values_set _ _ _ _ (Layout.values_erase _ _ _ hv) with h | h
        · exact Or.inr (h ▸ hhead)
        · exact Or.inl h
      | none =>
        simp only [hf] at hv
        rcases ih (layout.erase d) v hv with h | h
        · exact Or.inl (Layout.values_erase _ _ _ h)
        · exact Or.inr (htail v h)
    · rw [if_neg hd] at hv
      rcases ih layout v hv with h | h
      · exact Or.inl h
      · exact Or.inr (htail v h)

theorem deleteOutputLoop_values (g : CCompositor) (output : wlr_output)
    (rest layout result : Layout) (h : deleteOutputLoop g output rest layout = some result) :
    ∀ v ∈ result.values, v ∈ layout.values ∨ v ∈ rest.values := by
  induction rest generalizing layout with
  | nil =>
    simp only [deleteOutputLoop, Option.some.injEq] at h
    subst h
    intro v hv; exact Or.inl hv
  | cons e rest ih =>
    obtain ⟨d, wid⟩ := e
    intro v hv
    have htail : ∀ x, x ∈ Layout.values rest → x ∈ Layout.values ((d, wid) :: rest) := by
      intro x hx
      simp only [Layout.values, List.map_cons, List.mem_cons]
      exact Or.inr hx
    have hhead : wid ∈ Layout.values ((d, wid) :: rest) := by simp [Layout.values]
    simp only [deleteOutputLoop] at h
    by_cases hd : monitorDesc output = d
    · rw [if_pos hd] at h
      cases hc : firstAvailableMonitor g (currentlyEnabledMonitors g) with
      | none => simp [hc] at h
      | some newMonitor =>
        simp only [hc] at h
        rcases ih _ h v hv with h' | h'
        · rcases Layout.values_set _ _ _ _ (Layout.values_erase _ _ _ h') with h'' | h''
          · exact Or.inr (h'' ▸ hhead)
          · exact Or.inl h''
        · exact Or.inr (htail v h')
    · rw [if_neg hd] at h
      rcases ih layout h v hv with h' | h'
      · exact Or.inl h'
      · exact Or.inr (htail v h')

theorem deleteStaleLoop_values (g : CCompositor) (em : List CMonitor) (ed : List String)
    (rest layout result : Layout) (h : deleteStaleLoop g em ed rest layout = some result) :
    ∀ v ∈ result.values, v ∈ layout.values ∨ v ∈ rest.values := by
  induction rest generalizing layout with
  | nil =>
    simp only [deleteStaleLoop, Option.some.injEq] at h
    subst h
    intro v hv; exact Or.inl hv
  | cons e rest ih =>
    obtain ⟨d, wid⟩ := e
    intro v hv
    have htail : ∀ x, x ∈ Layout.values rest → x ∈ Layout.values ((d, wid) :: rest) := by
      intro x hx
      simp only [Layout.values, List.map_cons, List.mem_cons]
      exact Or.inr hx
    have hhead : wid ∈ Layout.values ((d, wid) :: rest) := by simp [Layout.values]
    simp only [deleteStaleLoop] at h
    by_cases hd : d ∉ ed
    · rw [if_pos hd] at h
      cases hc : firstAvailableMonitor g em with
      | none => simp [hc] at h
      | some newMonitor =>
        simp only [hc] at h
        rcases ih _ h v hv with h' | h'
        · rcases Layout.values_set _ _ _ _ (Layout.values_erase _ _ _ h') with h'' | h''
          · exact Or.inr (h'' ▸ hhead)
          · exact Or.inl h''
        · exact Or.inr (htail v h')
    · rw [if_neg hd] at h
      rcases ih layout h v hv with h' | h'
      · exact Or.inl h'
      · exact Or.inr (htail v h')

/-- C15: the repair operations never invent a workspace id.  For every layout
and registry state, every workspace id of the layout after `checkAndAdaptLayout`
is one the layout held before; and whenever `deleteInvalidMonitor(output)` or the
registry-driven `deleteInvalidMonitor()` completes on a desk whose active layout
is `layout`, every workspace id of the new active layout is one `layout` held
before. -/
theorem repair_keeps_workspace_ids (g : CCompositor) (layout : Layout) :
    (∀ v ∈ (checkAndAdaptLayout g layout).values, v ∈ layout.values) ∧
    (∀ (output : wlr_output) (s t : VirtualDesk),
      s.layouts[s.m_activeLayout_idx]? = some layout →
      deleteInvalidMonitor g output s = some t →
      ∃ edited, t.layouts[t.m_activeLayout_idx]? = some edited ∧
        ∀ v ∈ edited.values, v ∈ layout.values) ∧
    (∀ (s t : VirtualDesk),
      s.layouts[s.m_activeLayout_idx]? = some layout →
      deleteInvalidMonitorRegistry g s = some t →
      ∃ edited, t.layouts[t.m_activeLayout_idx]? = some edited ∧
        ∀ v ∈ edited.values, v ∈ layout.values) := by
  refine ⟨?_, ?_, ?_⟩
  · intro v hv
    rcases checkAndAdaptLoop_values g layout layout v hv with h | h <;> exact h
  · intro output s t hget ht
    unfold deleteInvalidMonitor at ht
    simp only [hget, Option.some_bind] at ht
    cases hloop : deleteOutputLoop g output layout layout with
    | none => simp [hloop] at ht
    | some result =>
      simp only [hloop, Option.map_some', Option.some.injEq] at ht
      subst ht
      refine ⟨result, getElem?_set_self' _ _ _ _ hget, ?_⟩
      intro v hv
      rcases deleteOutputLoop_values g output layout layout result hloop v hv with h | h <;> exact h
  · intro s t hget ht
    unfold deleteInvalidMonitorRegistry at ht
    simp only [hget, Option.some_bind] at ht
    cases hloop : deleteStaleLoop g (currentlyEnabledMonitors g)
        ((currentlyEnabledMonitors g).map (fun mon => monitorDesc mon.output)) layout layout with
    | none => simp [hloop] at ht
    | some result =>
      simp only [hloop, Option.map_some', Option.some.injEq] at ht
      subst ht
      refine ⟨result, getElem?_set_self' _ _ _ _ hget, ?_⟩
      intro v hv
      rcases deleteStaleLoop_values g _ _ layout layout result hloop v hv with h | h <;> exact h

/-- C15 (witness): `{A:1, X:2, Y:3}` with `A`, `B` enabled: the three repairs give
`{A:1, Y:3, B:2}`, `{A:1, Y:3, B:2}` (output `X` removed) and `{A:1, B:3}`. -/
theorem repair_keeps_workspace_ids_witness :
    checkAndAdaptLayout (compositorOf ["A", "B"] windowsABC) [("A", 1), ("X", 2), ("Y", 3)]
      = [("A", 1), ("Y", 3), ("B", 2)] ∧
    deleteInvalidMonitor (compositorOf ["A", "B"] windowsABC) { description := some "X" }
        (deskOf [("A", 1), ("X", 2), ("Y", 3)]) = some (deskOf [("A", 1), ("Y", 3), ("B", 2)]) ∧
    deleteInvalidMonitorRegistry (compositorOf ["A", "B"] windowsABC)
        (deskOf [("A", 1), ("X", 2), ("Y", 3)]) = some (deskOf [("A", 1), ("B", 3)]) ∧
    (∀ v ∈ (checkAndAdaptLayout (compositorOf ["A", "B"] windowsABC)
        [("A", 1), ("X", 2), ("Y", 3)]).values, v ∈ Layout.values [("A", 1), ("X", 2), ("Y", 3)]) ∧
    (∃ edited, (deskOf [("A", 1), ("Y", 3), ("B", 2)]).layouts[
        (deskOf [("A", 1), ("Y", 3), ("B", 2)]).m_activeLayout_idx]? = some edited ∧
      ∀ v ∈ edited.values, v ∈ Layout.values [("A", 1), ("X", 2), ("Y", 3)]) ∧
    (∃ edited, (deskOf [("A", 1), ("B", 3)]).layouts[
        (deskOf [("A", 1), ("B", 3)]).m_activeLayout_idx]? = some edited ∧
      ∀ v ∈ edited.values, v ∈ Layout.values [("A", 1), ("X", 2), ("Y", 3)]) :=
  ⟨by decide, by decide, by decide,
   (repair_keeps_workspace_ids (compositorOf ["A", "B"] windowsABC)
      [("A", 1), ("X", 2), ("Y", 3)]).1,
   (repair_keeps_workspace_ids (compositorOf ["A", "B"] windowsABC)
      [("A", 1), ("X", 2), ("Y", 3)]).2.1 { description := some "X" }
      (deskOf [("A", 1), ("X", 2), ("Y", 3)]) (deskOf [("A", 1), ("Y", 3), ("B", 2)])
      (by decide) (by decide),
   (repair_keeps_workspace_ids (compositorOf ["A", "B"] windowsABC)
      [("A", 1), ("X", 2), ("Y", 3)]).2.2
      (deskOf [("A", 1), ("X", 2), ("Y", 3)]) (deskOf [("A", 1), ("B", 3)])
      (by decide) (by decide)⟩

/-! ## Workspace ids of different desks -/

theorem generateLoop_values (bound : Nat) (rest : List CMonitor) (i : Int) (layout result : Layout)
    (h : generateLoop bound rest i layout = some result) :
    ∀ v ∈ result.values, v ∈ layout.values ∨ (i ≤ v ∧ v < i + rest.length) := by
  induction rest generalizing i layout with
  | nil =>
    simp only [generateLoop] at h
    split at h
    · exact Option.noConfusion h
    · simp only [Option.some.injEq] at h
      subst h
      intro v hv; exact Or.inl hv
  | cons mon rest ih =>
    simp only [generateLoop] at h
    by_cases hlt : toSizeT i < bound
    · rw [if_pos hlt] at h
      by_cases hmax : i = INT_MAX
      · rw [if_pos hmax] at h
        exact Option.noConfusion h
      · rw [if_neg hmax] at h
        intro v hv
        simp only [List.length_cons, Nat.cast_add, Nat.cast_one]
        rcases ih (i + 1) _ h v hv with h' | h'
        · rcases Layout.values_set _ _ _ _ h' with h'' | h''
          · exact Or.inr (by omega)
          · exact Or.inl h''
        · exact Or.inr (by omega)
    · rw [if_neg hlt] at h
      simp only [Option.some.injEq] at h
      subst h
      intro v hv; exact Or.inl hv

/-- Within the `int` range the generated layout exists and its workspace ids
lie between `(D-1)*n + 1` and `(D-1)*n + n`. -/
theorem generateCurrentMonitorLayout_values_range (g : CCompositor) (D : Int)
    (hD : 1 ≤ D)
    (hnd : (enabledDescs g).Nodup)
    (hfit : (D - 1) * (currentlyEnabledMonitors g).length
              + (currentlyEnabledMonitors g).length < INT_MAX) :
    ∃ layout, generateCurrentMonitorLayout g D = some layout ∧
      ∀ v ∈ layout.values, (D - 1) * (currentlyEnabledMonitors g).length + 1 ≤ v ∧
        v ≤ (D - 1) * (currentlyEnabledMonitors g).length + (currentlyEnabledMonitors g).length := by
  unfold generateCurrentMonitorLayout vdeskFirstWorkspace
  simp only
  generalize hms : currentlyEnabledMonitors g = ms at hfit
  have hnd' : (ms.map (fun mon => monitorDesc mon.output)).Nodup := by
    rw [← hms]; exact hnd
  obtain ⟨d, hd⟩ : ∃ d : Nat, D - 1 = d := ⟨(D - 1).toNat, by omega⟩
  rw [hd] at hfit ⊢
  have hfit' : d * ms.length + ms.length < 2147483647 := by
    unfold INT_MAX at hfit
    have : ((d * ms.length + ms.length : Nat) : Int) < 2147483647 := by
      push_cast; exact hfit
    exact_mod_cast this
  have hd64 : toSizeT (d : Int) * ms.length = d * ms.length := by
    rcases Nat.eq_zero_or_pos ms.length with h0 | hpos
    · simp [h0]
    · have hle : d ≤ d * ms.length := Nat.le_mul_of_pos_right d hpos
      have : toSizeT (d : Int) = d := by unfold toSizeT; omega
      rw [this]
  rw [hd64]
  have hpd : ((d : Int) * ms.length) = ((d * ms.length : Nat) : Int) := by push_cast; ring
  rw [hpd]
  generalize d * ms.length = p at hfit' ⊢
  have hfirst : wrapSizeT (wrapSizeT p + 1) = p + 1 := by
    unfold wrapSizeT; omega
  have hbound : wrapSizeT (p + 1 + ms.length) = p + 1 + ms.length := by
    unfold wrapSizeT; omega
  have hi : toInt32 ((p + 1 : Nat) : Int) = (p : Int) + 1 := by
    unfold toInt32; omega
  rw [hfirst, hbound, hi]
  obtain ⟨result, hres, -, -, -⟩ :=
    generateLoop_spec (p + 1 + ms.length) ms ((p : Int) + 1) [] (by omega)
      (by push_cast; ring) (by unfold INT_MAX; omega) hnd' (by simp [Layout.keys])
  refine ⟨result, hres, ?_⟩
  intro v hv
  rcases generateLoop_values _ ms _ [] result hres v hv with h | h
  · simp [Layout.values] at h
  · omega

/-- C14: for two distinct desk ids `D1, D2 ≥ 1` and the same `n` enabled monitors
with distinct descriptions, both within the `int` range (no overflow), the two
generated layouts exist and no workspace id of the layout for `D1` is a
workspace id of the layout for `D2`. -/
theorem generateCurrentMonitorLayout_desks_disjoint (g : CCompositor) (D1 D2 : Int)
    (h1 : 1 ≤ D1) (h2 : 1 ≤ D2) (hne : D1 ≠ D2)
    (hnd : (enabledDescs g).Nodup)
    (hfit1 : (D1 - 1) * (currentlyEnabledMonitors g).length
              + (currentlyEnabledMonitors g).length < INT_MAX)
    (hfit2 : (D2 - 1) * (currentlyEnabledMonitors g).length
              + (currentlyEnabledMonitors g).length < INT_MAX) :
    ∃ l1 l2, generateCurrentMonitorLayout g D1 = some l1 ∧
      generateCurrentMonitorLayout g D2 = some l2 ∧
      ∀ v ∈ l1.values, v ∉ l2.values := by
  obtain ⟨l1, hl1, hr1⟩ := generateCurrentMonitorLayout_values_range g D1 h1 hnd hfit1
  obtain ⟨l2, hl2, hr2⟩ := generateCurrentMonitorLayout_values_range g D2 h2 hnd hfit2
  refine ⟨l1, l2, hl1, hl2, ?_⟩
  intro v hv1 hv2
  have b1 := hr1 v hv1
  have b2 := hr2 v hv2
  generalize ((currentlyEnabledMonitors g).length : Int) = n at b1 b2
  have hn : 0 ≤ n := by
    by_contra hcon
    have : (D1 - 1) * n + n = D1 * n := by ring
    nlinarith [b1.1, b1.2]
  rcases lt_or_gt_of_ne hne with hlt | hgt
  · have hmul : D1 * n ≤ (D2 - 1) * n := Int.mul_le_mul_of_nonneg_right (by omega) hn
    have : (D1 - 1) * n + n = D1 * n := by ring
    omega
  · have hmul : D2 * n ≤ (D1 - 1) * n := Int.mul_le_mul_of_nonneg_right (by omega) hn
    have : (D2 - 1) * n + n = D2 * n := by ring
    omega

/-- C14 (witness): desks 1 and 2 on monitors `A`, `B`, `C` get `{1,2,3}` and `{4,5,6}`. -/
theorem generateCurrentMonitorLayout_desks_disjoint_witness :
    generateCurrentMonitorLayout (compositorOf ["A", "B", "C"] noWindows) 1
      = some [("A", 1), ("B", 2), ("C", 3)] ∧
    generateCurrentMonitorLayout (compositorOf ["A", "B", "C"] noWindows) 2
      = some [("A", 4), ("B", 5), ("C", 6)] ∧
    ∃ l1 l2, generateCurrentMonitorLayout (compositorOf ["A", "B", "C"] noWindows) 1 = some l1 ∧
      generateCurrentMonitorLayout (compositorOf ["A", "B", "C"] noWindows) 2 = some l2 ∧
      ∀ v ∈ l1.values, v ∉ l2.values :=
  ⟨by decide, by decide,
   generateCurrentMonitorLayout_desks_disjoint (compositorOf ["A", "B", "C"] noWindows) 1 2
    (by decide) (by decide) (by decide) (by decide) (by decide) (by decide)⟩

end VirtualDesk
